import Mathlib

/-
  Verification of the GIACC GIA-container mode converter (src/giacc.py).

  The byte content of a file is modelled as `List Nat` with entries below 256.
  Multi-byte integers are big-endian 32-bit unsigned values, modelled as `Nat`
  with explicit `% 2^32` reductions where the encoding wraps.  Fallible code
  paths return an explicit result type: `GiaError.invalidFormat path` models a
  call to `error_file_invalid(path)` (which prints a message naming the path
  and exits), while `GiaError.parseError` models an exception that the
  program's `except OSError` handler does not catch (a `struct.error` from
  unpacking a too-short buffer, or the `ValueError` raised when mapping an
  empty file), aborting with a traceback instead of the InvalidFormat message.
-/

namespace GIACC

abbrev Bytes := List Nat

/-- Source `Header.Struct.size` in giacc.py: five big-endian uint32 fields. -/
def headerStructSize : Nat := 20

/-- Source `Footer.Struct.size` in giacc.py: one big-endian uint32 field. -/
def footerStructSize : Nat := 4

/-- Source `Header.FILE_LEN_EXCLUDED`: the file length field does not count itself. -/
def FILE_LEN_EXCLUDED : Nat := 4

/-- Source `Header.MAGIC_NUM`. -/
def HEADER_MAGIC_NUM : Nat := 806

/-- Source `Footer.MAGIC_NUM`. -/
def FOOTER_MAGIC_NUM : Nat := 1657

/-- Source `FileType.GIA.value`. -/
def GIA_FILE_TYPE : Nat := 3

/-- Source `CLASSIC_MODE_TAG = bytes.fromhex("20 01")`. -/
def CLASSIC_MODE_TAG : Bytes := [32, 1]

/-- Source `FILENAME_TERMINATOR = bytes.fromhex("2A 05")`. -/
def FILENAME_TERMINATOR : Bytes := [42, 5]

/-- Source `class AssetMode(Enum)`. -/
inductive AssetMode
  | BEYOND
  | CLASSIC
deriving DecidableEq, Repr

/-- The five fields of `class Header(NamedTuple)`, in field order. -/
structure Header where
  file_len : Nat
  file_ver : Nat
  magic_num : Nat
  file_type : Nat
  content_len : Nat
deriving DecidableEq, Repr

/-- How a run of `do_giacc_convert` fails. -/
inductive GiaError
  | invalidFormat : String → GiaError
  | parseError : GiaError
deriving DecidableEq, Repr

/-- The message printed by `error_file_invalid` (an f-string naming the path),
versus the traceback of an exception not caught by `except OSError`. -/
def errorMessage : GiaError → String
  | .invalidFormat path => "Input file is not a valid GIA file: \"" ++ path ++ "\""
  | .parseError => "Traceback: unhandled exception"

/-- Result of a fallible step, mirroring normal return versus `sys.exit`. -/
inductive GRes (α : Type)
  | ok : α → GRes α
  | error : GiaError → GRes α
deriving DecidableEq, Repr

/-- Big-endian composition of four bytes into one unsigned 32-bit value. -/
def be32 (b0 b1 b2 b3 : Nat) : Nat :=
  ((b0 * 256 + b1) * 256 + b2) * 256 + b3

/-- Big-endian decomposition of an unsigned 32-bit value into four bytes.
Python's `struct.pack(">I", v)` raises `struct.error` for `v` outside
`[0, 2^32)`; this model instead encodes `v % 2^32` bytewise, so it agrees
with the source only for values in `[0, 2^32)`.  Every theorem about a
conversion that repacks adjusted header fields therefore carries explicit
byte-valuedness and `src.length ≤ 2^32` hypotheses, which keep each packed
value in that range. -/
def u32Bytes (v : Nat) : Bytes :=
  [v / 16777216 % 256, v / 65536 % 256, v / 256 % 256, v % 256]

/-- Read a big-endian uint32 at offset `off` of `src`. -/
def readU32 (src : Bytes) (off : Nat) : Nat :=
  be32 (src.getD off 0) (src.getD (off + 1) 0) (src.getD (off + 2) 0) (src.getD (off + 3) 0)

/-- The header decoded from the first 20 bytes (total function form). -/
def headerOf (src : Bytes) : Header :=
  ⟨readU32 src 0, readU32 src 4, readU32 src 8, readU32 src 12, readU32 src 16⟩

/-- Source `Header._make(Header.Struct.unpack_from(src, 0))`: decodes the first 20
bytes; `struct.error` (buffer shorter than 20 bytes) is `none`. -/
def parseHeader (src : Bytes) : Option Header :=
  if headerStructSize ≤ src.length then some (headerOf src) else none

/-- Source `Footer.Struct.unpack(src[-4:])`: decodes the last 4 bytes. -/
def parseFooterMagic (src : Bytes) : Option Nat :=
  if footerStructSize ≤ src.length then
    some (readU32 src (src.length - footerStructSize))
  else none

/-- Source `struct.pack(">IIIII", *header)`. -/
def serializeHeader (h : Header) : Bytes :=
  u32Bytes h.file_len ++ u32Bytes h.file_ver ++ u32Bytes h.magic_num ++
    u32Bytes h.file_type ++ u32Bytes h.content_len

/-- Does `FILENAME_TERMINATOR` occur at index `i` of `src`? -/
def termMatchAt (src : Bytes) (i : Nat) : Bool :=
  src.getD i 0 == 42 && src.getD (i + 1) 0 == 5

/-- Last index `k < bound` where the terminator occurs, scanning downward. -/
def rfindTermBelow (src : Bytes) : Nat → Option Nat
  | 0 => none
  | k + 1 => if termMatchAt src k then some k else rfindTermBelow src k

/-- Source `src.rfind(FILENAME_TERMINATOR, 0, stop)`: the last index `i` with
`i + 2 ≤ stop` at which the two terminator bytes occur. -/
def rfindTerm (src : Bytes) (stop : Nat) : Option Nat :=
  rfindTermBelow src (stop - 1)

/-- Python slice `l[a : b]` for nonnegative `a`, `b`. -/
def pySlice (l : Bytes) (a b : Nat) : Bytes := (l.take b).drop a

/-- Everything `do_giacc_convert` learns about the source before writing:
parsed header, `fterm_index`, `ctag_index` (after the mode branch, so equal to
`fterm_index` for Beyond), and `from_mode`. -/
structure ParseInfo where
  header : Header
  fterm_index : Nat
  ctag_index : Nat
  from_mode : AssetMode
deriving DecidableEq, Repr

/-- Lines 122-135 of giacc.py: terminator search and mode detection. -/
def detectMode (src_path : String) (src : Bytes) (header : Header) : GRes ParseInfo :=
  match rfindTerm src (src.length - footerStructSize) with
  | none => .error (.invalidFormat src_path)
  | some fterm_index =>
    -- ctag_index = fterm_index - len(CLASSIC_MODE_TAG); the `>= 20` test is
    -- evaluated first, so Nat truncation agrees with Python's negative int.
    if headerStructSize ≤ fterm_index - 2 ∧
        pySlice src (fterm_index - 2) fterm_index = CLASSIC_MODE_TAG then
      .ok ⟨header, fterm_index, fterm_index - 2, .CLASSIC⟩
    else
      .ok ⟨header, fterm_index, fterm_index, .BEYOND⟩

/-- Lines 104-135 of giacc.py: mmap the file, parse and validate the header
and footer, then locate the terminator and detect the mode.  All validation
failures call `error_file_invalid(src_path)`.  `mmap` of an empty file raises
`ValueError`, and `Header.Struct.unpack_from` raises `struct.error` exactly
when the buffer is shorter than 20 bytes (`parseHeader src = none`); neither
is caught by the `except OSError` handler, hence `parseError`.  Once
`20 ≤ src.length` the parsed header is `headerOf src` and `src[-4:]` has
exactly 4 bytes, so `Footer.Struct.unpack` yields
`readU32 src (src.length - 4)`. -/
def analyze (src_path : String) (src : Bytes) : GRes ParseInfo :=
  if src.length = 0 then .error .parseError
  else if src.length < headerStructSize then .error .parseError
  else if ((headerOf src).file_len : Int) ≠ (src.length : Int) - FILE_LEN_EXCLUDED then
    .error (.invalidFormat src_path)
  else if (headerOf src).magic_num ≠ HEADER_MAGIC_NUM then
    .error (.invalidFormat src_path)
  else if (headerOf src).file_type ≠ GIA_FILE_TYPE then
    .error (.invalidFormat src_path)
  else if ((headerOf src).content_len : Int) ≠
      (src.length : Int) - headerStructSize - footerStructSize then
    .error (.invalidFormat src_path)
  else if readU32 src (src.length - footerStructSize) ≠ FOOTER_MAGIC_NUM then
    .error (.invalidFormat src_path)
  else detectMode src_path src (headerOf src)

/-- Source `len_adjustment` of lines 160-163. -/
def len_adjustment : AssetMode → Int
  | .CLASSIC => 2
  | .BEYOND => -2

/-- A length field after `header._replace`, modelled as a total function via
`Int.toNat`.  Python keeps the exact int and only fails later, when
`struct.pack(">I", ...)` rejects a value outside `[0, 2^32)`: an accepted
file of total length `2^32 + 2` or `2^32 + 3` does overflow on the `+2`
adjustment and the program aborts in `pack`/`pack_into` instead of writing
output.  The conversion theorems therefore carry a `src.length ≤ 2^32`
hypothesis, under which every adjusted value stays in `[0, 2^32)` and this
model coincides with the source (negative values cannot arise there, since
an accepted file has `file_len = length - 4 ≥ 20` and, whenever a `-2`
adjustment is reachable, `content_len = length - 24 ≥ 4`). -/
def adjustField (v : Nat) (d : Int) : Nat := ((v : Int) + d).toNat

/-- Source `header._replace(file_len = ..., content_len = ...)` of lines 168-170. -/
def newHeader (h : Header) (to_mode : AssetMode) : Header :=
  { h with
    file_len := adjustField h.file_len (len_adjustment to_mode),
    content_len := adjustField h.content_len (len_adjustment to_mode) }

/-- Lines 152-155 and 192-206: the destination bytes written when the
destination is distinct from the source. -/
def convertCopy (src : Bytes) (info : ParseInfo) (to_mode : AssetMode) : Bytes :=
  if info.from_mode = to_mode then src
  else
    serializeHeader (newHeader info.header to_mode) ++
      pySlice src headerStructSize info.ctag_index ++
      (if to_mode = AssetMode.CLASSIC then CLASSIC_MODE_TAG else []) ++
      src.drop info.fterm_index

/-- Source `mmap.resize(n)`: growing zero-fills, shrinking truncates. -/
def resize (b : Bytes) (n : Nat) : Bytes :=
  if n ≤ b.length then b.take n else b ++ List.replicate (n - b.length) 0

/-- Overwrite the bytes of `b` starting at index `i` with `repl`
(slice assignment / `pack_into`; in-range in every reachable use). -/
def setRange (b : Bytes) (i : Nat) (repl : Bytes) : Bytes :=
  b.take i ++ repl ++ b.drop (i + repl.length)

/-- Source `mmap.move(dest, start, cnt)`: memmove semantics, overlap-safe. -/
def mmove (b : Bytes) (dest start cnt : Nat) : Bytes :=
  setRange b dest (pySlice b start (start + cnt))

/-- Lines 148-150 and 174-190: the final bytes of the source file when the
destination is the source itself (`dst_path == None`).  When converting to
Beyond the source was detected Classic, so `fterm_index ≥ 22` and the Nat
subtraction in `fterm_index_new = fterm_index + len_adjustment` is exact. -/
def convertInPlace (src : Bytes) (info : ParseInfo) (to_mode : AssetMode) : Bytes :=
  if info.from_mode = to_mode then src
  else if to_mode = AssetMode.CLASSIC then
    setRange
      (setRange
        (mmove (resize src (src.length + 2)) (info.fterm_index + 2) info.fterm_index
          (src.length - info.fterm_index))
        info.ctag_index CLASSIC_MODE_TAG)
      0 (serializeHeader (newHeader info.header to_mode))
  else
    setRange
      (resize
        (mmove src (info.fterm_index - 2) info.fterm_index (src.length - info.fterm_index))
        (src.length - 2))
      0 (serializeHeader (newHeader info.header to_mode))

/-- Final state of one `do_giacc_convert` run: the source file's bytes and,
when a distinct destination was opened, the destination file's bytes. -/
structure ConvertResult where
  srcFinal : Bytes
  dstFinal : Option Bytes
deriving DecidableEq, Repr

/-- Source `do_giacc_convert(src_path, to_mode, dst_path)`.  `to_mode = none` is the
query operation; `dst_distinct = false` models `dst_path == None` (the `"*"`
command-line form, writing back to the source).  All validation precedes any
write, so an error leaves the source untouched and creates no destination. -/
def do_giacc_convert (src_path : String) (src : Bytes) (to_mode : Option AssetMode)
    (dst_distinct : Bool) : GRes ConvertResult :=
  match analyze src_path src with
  | .error e => .error e
  | .ok info =>
    match to_mode with
    | none => .ok ⟨src, none⟩
    | some tm =>
      if dst_distinct then .ok ⟨src, some (convertCopy src info tm)⟩
      else .ok ⟨convertInPlace src info tm, none⟩

/-- The bytes the run produced: the distinct destination if one was written,
otherwise the (possibly rewritten) source. -/
def producedOutput (r : ConvertResult) : Bytes :=
  match r.dstFinal with
  | some o => o
  | none => r.srcFinal

/-- The destination bytes of a completed run with a distinct destination. -/
def outputOf (r : GRes ConvertResult) : Option Bytes :=
  match r with
  | .ok res => res.dstFinal
  | .error _ => none

/-- The mode opposite to `m`. -/
def otherModeOf : AssetMode → AssetMode
  | .BEYOND => .CLASSIC
  | .CLASSIC => .BEYOND

/-- Convert a container to the opposite of its detected mode and then convert
the result back, both times into a distinct destination. -/
def roundTripCopy (path : String) (src : Bytes) : Option Bytes :=
  match analyze path src with
  | .error _ => none
  | .ok info =>
    match outputOf (do_giacc_convert path src (some (otherModeOf info.from_mode)) true) with
    | none => none
    | some tmp => outputOf (do_giacc_convert path tmp (some info.from_mode) true)

/-- The header and footer record checks of lines 106-120, as one predicate
(no terminator requirement). -/
def structChecks (src : Bytes) : Bool :=
  decide (headerStructSize ≤ src.length) &&
    (((headerOf src).file_len : Int) == (src.length : Int) - FILE_LEN_EXCLUDED) &&
    ((headerOf src).magic_num == HEADER_MAGIC_NUM) &&
    ((headerOf src).file_type == GIA_FILE_TYPE) &&
    (((headerOf src).content_len : Int) ==
      (src.length : Int) - headerStructSize - footerStructSize) &&
    (readU32 src (src.length - footerStructSize) == FOOTER_MAGIC_NUM)

/-- Spec section 8, property 3: both length fields of a file agree with its
actual total length. -/
def specHeaderConsistent (o : Bytes) : Bool :=
  match parseHeader o with
  | some h =>
    ((h.file_len : Int) == (o.length : Int) - 4) &&
      ((h.content_len : Int) == (o.length : Int) - 24)
  | none => false

/-- A minimal valid Beyond-mode container (26 bytes): header
`(22, 0, 806, 3, 2)`, body `2A 05`, footer `1657`. -/
def fileBeyond : Bytes :=
  [0, 0, 0, 22, 0, 0, 0, 0, 0, 0, 3, 38, 0, 0, 0, 3, 0, 0, 0, 2, 42, 5, 0, 0, 6, 121]

/-- A minimal valid Classic-mode container (28 bytes): header
`(24, 0, 806, 3, 4)`, body `20 01 2A 05`, footer `1657`. -/
def fileClassic : Bytes :=
  [0, 0, 0, 24, 0, 0, 0, 0, 0, 0, 3, 38, 0, 0, 0, 3, 0, 0, 0, 4, 32, 1, 42, 5, 0, 0, 6, 121]

/-- A 24-byte container passing every header/footer check whose only
`2A 05` occurrence sits inside the header (`file_ver = 0x2A050000`). -/
def fileTermInHeader : Bytes :=
  [0, 0, 0, 20, 42, 5, 0, 0, 0, 0, 3, 38, 0, 0, 0, 3, 0, 0, 0, 0, 0, 0, 6, 121]

/-- A valid Classic-mode container (30 bytes) whose body is
`20 01 20 01 2A 05`: a second tag-shaped byte pair sits right before the
mode tag. -/
def fileDoubleTag : Bytes :=
  [0, 0, 0, 26, 0, 0, 0, 0, 0, 0, 3, 38, 0, 0, 0, 3, 0, 0, 0, 6,
   32, 1, 32, 1, 42, 5, 0, 0, 6, 121]

/-- A 24-byte container passing every header/footer check that contains no
`2A 05` occurrence at all. -/
def fileNoTerm : Bytes :=
  [0, 0, 0, 20, 0, 0, 0, 0, 0, 0, 3, 38, 0, 0, 0, 3, 0, 0, 0, 0, 0, 0, 6, 121]

/-- A 10-byte file: shorter than the 20-byte header record. -/
def fileShort : Bytes := [0, 0, 0, 0, 0, 0, 0, 0, 0, 0]

/-- A 26-byte container that is valid except for its footer magic, which is
1656 instead of 1657. -/
def fileBadFooter : Bytes :=
  [0, 0, 0, 22, 0, 0, 0, 0, 0, 0, 3, 38, 0, 0, 0, 3, 0, 0, 0, 2, 42, 5, 0, 0, 6, 120]

/-- A 24-byte container whose header magic is 807 instead of 806. -/
def fileBadMagic : Bytes :=
  [0, 0, 0, 20, 0, 0, 0, 0, 0, 0, 3, 39, 0, 0, 0, 3, 0, 0, 0, 0, 0, 0, 6, 121]

/-
  Helper lemmas: byte-level arithmetic, `getD` bookkeeping, and the
  characterization of the backward terminator scan.
-/

lemma getD_drop (l : Bytes) (a i : Nat) : (l.drop a).getD i 0 = l.getD (a + i) 0 := by
  simp [List.getD_eq_getElem?_getD, List.getElem?_drop]

lemma getD_append_left {l₁ l₂ : Bytes} {i : Nat} (h : i < l₁.length) :
    (l₁ ++ l₂).getD i 0 = l₁.getD i 0 := by
  simp [List.getD_eq_getElem?_getD, List.getElem?_append, h]

lemma getD_append_right {l₁ l₂ : Bytes} {i : Nat} (h : l₁.length ≤ i) :
    (l₁ ++ l₂).getD i 0 = l₂.getD (i - l₁.length) 0 := by
  simp [List.getD_eq_getElem?_getD, List.getElem?_append_right h]

lemma getD_eq_of_drop_eq {out src : Bytes} {a b : Nat} (h : out.drop a = src.drop b)
    {q : Nat} (hq : a ≤ q) : out.getD q 0 = src.getD (b + (q - a)) 0 := by
  have h1 : (out.drop a).getD (q - a) 0 = (src.drop b).getD (q - a) 0 := by rw [h]
  rw [getD_drop, getD_drop] at h1
  have e : a + (q - a) = q := by omega
  rw [e] at h1
  exact h1

lemma termMatchAt_eq_of_drop_eq {out src : Bytes} {a b : Nat} (h : out.drop a = src.drop b)
    {q : Nat} (hq : a ≤ q) : termMatchAt out q = termMatchAt src (b + (q - a)) := by
  unfold termMatchAt
  rw [getD_eq_of_drop_eq h hq, getD_eq_of_drop_eq h (show a ≤ q + 1 by omega)]
  have e : b + (q + 1 - a) = b + (q - a) + 1 := by omega
  rw [e]

lemma readU32_eq_of_drop_eq {out src : Bytes} {a b : Nat} (h : out.drop a = src.drop b)
    {q : Nat} (hq : a ≤ q) : readU32 out q = readU32 src (b + (q - a)) := by
  unfold readU32
  rw [getD_eq_of_drop_eq h hq, getD_eq_of_drop_eq h (show a ≤ q + 1 by omega),
    getD_eq_of_drop_eq h (show a ≤ q + 2 by omega),
    getD_eq_of_drop_eq h (show a ≤ q + 3 by omega)]
  have e1 : b + (q + 1 - a) = b + (q - a) + 1 := by omega
  have e2 : b + (q + 2 - a) = b + (q - a) + 2 := by omega
  have e3 : b + (q + 3 - a) = b + (q - a) + 3 := by omega
  rw [e1, e2, e3]

lemma u32Bytes_be32 {b0 b1 b2 b3 : Nat} (h0 : b0 < 256) (h1 : b1 < 256) (h2 : b2 < 256)
    (h3 : b3 < 256) : u32Bytes (be32 b0 b1 b2 b3) = [b0, b1, b2, b3] := by
  unfold u32Bytes be32
  have e0 : (((b0 * 256 + b1) * 256 + b2) * 256 + b3) / 16777216 % 256 = b0 := by omega
  have e1 : (((b0 * 256 + b1) * 256 + b2) * 256 + b3) / 65536 % 256 = b1 := by omega
  have e2 : (((b0 * 256 + b1) * 256 + b2) * 256 + b3) / 256 % 256 = b2 := by omega
  have e3 : (((b0 * 256 + b1) * 256 + b2) * 256 + b3) % 256 = b3 := by omega
  rw [e0, e1, e2, e3]

lemma be32_lt {b0 b1 b2 b3 : Nat} (h0 : b0 < 256) (h1 : b1 < 256) (h2 : b2 < 256)
    (h3 : b3 < 256) : be32 b0 b1 b2 b3 < 4294967296 := by
  unfold be32
  omega

lemma length_u32Bytes (v : Nat) : (u32Bytes v).length = 4 := rfl

lemma length_serializeHeader (h : Header) : (serializeHeader h).length = 20 := by
  simp [serializeHeader, u32Bytes]

lemma rfindTermBelow_some_iff {src : Bytes} {k i : Nat} :
    rfindTermBelow src k = some i ↔
      i < k ∧ termMatchAt src i = true ∧
        ∀ j, i < j → j < k → termMatchAt src j = false := by
  induction k with
  | zero => simp [rfindTermBelow]
  | succ k ih =>
    unfold rfindTermBelow
    by_cases hm : termMatchAt src k
    · simp only [hm, if_true, Option.some_inj]
      constructor
      · rintro rfl
        exact ⟨by omega, hm, by intro j h1 h2; omega⟩
      · rintro ⟨hik, hi, hmax⟩
        by_contra hne
        have hlt : i < k := by omega
        have := hmax k hlt (by omega)
        rw [hm] at this
        cases this
    · rw [if_neg hm, ih]
      constructor
      · rintro ⟨hik, hi, hmax⟩
        refine ⟨by omega, hi, ?_⟩
        intro j h1 h2
        rcases Nat.lt_or_ge j k with hj | hj
        · exact hmax j h1 hj
        · have he : j = k := by omega
          subst he
          exact Bool.eq_false_iff.mpr hm
      · rintro ⟨hik, hi, hmax⟩
        have hine : i ≠ k := by
          intro he
          subst he
          exact hm hi
        refine ⟨by omega, hi, ?_⟩
        intro j h1 h2
        exact hmax j h1 (by omega)

lemma rfindTermBelow_none_iff {src : Bytes} {k : Nat} :
    rfindTermBelow src k = none ↔ ∀ j, j < k → termMatchAt src j = false := by
  induction k with
  | zero => simp [rfindTermBelow]
  | succ k ih =>
    unfold rfindTermBelow
    by_cases hm : termMatchAt src k
    · rw [if_pos hm]
      constructor
      · intro h
        cases h
      · intro h
        have := h k (by omega)
        rw [hm] at this
        cases this
    · rw [if_neg hm, ih]
      constructor
      · intro h j hj
        rcases Nat.lt_or_ge j k with h1 | h1
        · exact h j h1
        · have : j = k := by omega
          subst this
          exact Bool.eq_false_iff.mpr hm
      · intro h j hj
        exact h j (by omega)

lemma rfindTerm_some_iff {src : Bytes} {stop i : Nat} :
    rfindTerm src stop = some i ↔
      i + 2 ≤ stop ∧ termMatchAt src i = true ∧
        ∀ j, i < j → j + 2 ≤ stop → termMatchAt src j = false := by
  unfold rfindTerm
  rw [rfindTermBelow_some_iff]
  constructor
  · rintro ⟨h1, h2, h3⟩
    exact ⟨by omega, h2, fun j hj hjs => h3 j hj (by omega)⟩
  · rintro ⟨h1, h2, h3⟩
    exact ⟨by omega, h2, fun j hj hjs => h3 j hj (by omega)⟩

lemma rfindTerm_none_iff {src : Bytes} {stop : Nat} :
    rfindTerm src stop = none ↔ ∀ j, j + 2 ≤ stop → termMatchAt src j = false := by
  unfold rfindTerm
  rw [rfindTermBelow_none_iff]
  constructor
  · intro h j hj
    exact h j (by omega)
  · intro h j hj
    exact h j (by omega)

lemma parseHeader_of_le {src : Bytes} (h : headerStructSize ≤ src.length) :
    parseHeader src = some (headerOf src) := by
  unfold parseHeader
  rw [if_pos h]

lemma parseHeader_eq_some_iff {src : Bytes} {h : Header} :
    parseHeader src = some h ↔ headerStructSize ≤ src.length ∧ h = headerOf src := by
  unfold parseHeader
  split
  · simp only [Option.some_inj]
    constructor
    · intro he
      exact ⟨by assumption, he.symm⟩
    · rintro ⟨_, rfl⟩
      rfl
  · simp only [reduceCtorEq, false_iff, not_and]
    intro hc
    omega

lemma parseFooterMagic_of_le {src : Bytes} (h : footerStructSize ≤ src.length) :
    parseFooterMagic src = some (readU32 src (src.length - footerStructSize)) := by
  unfold parseFooterMagic
  rw [if_pos h]

lemma readU32_u32Bytes_append {v : Nat} (rest : Bytes) (hv : v < 4294967296) :
    readU32 (u32Bytes v ++ rest) 0 = v := by
  unfold readU32 u32Bytes be32
  simp only [List.cons_append, List.getD_cons_zero, List.getD_cons_succ]
  omega

lemma readU32_append_right {l₁ l₂ : Bytes} {off : Nat} (h : l₁.length ≤ off) :
    readU32 (l₁ ++ l₂) off = readU32 l₂ (off - l₁.length) := by
  unfold readU32
  rw [getD_append_right h, getD_append_right (by omega), getD_append_right (by omega),
    getD_append_right (by omega)]
  have e1 : off + 1 - l₁.length = off - l₁.length + 1 := by omega
  have e2 : off + 2 - l₁.length = off - l₁.length + 2 := by omega
  have e3 : off + 3 - l₁.length = off - l₁.length + 3 := by omega
  rw [e1, e2, e3]

lemma parseHeader_serialize_append {h : Header} (rest : Bytes)
    (h1 : h.file_len < 4294967296) (h2 : h.file_ver < 4294967296)
    (h3 : h.magic_num < 4294967296) (h4 : h.file_type < 4294967296)
    (h5 : h.content_len < 4294967296) :
    parseHeader (serializeHeader h ++ rest) = some h := by
  obtain ⟨a, b, c, d, e⟩ := h
  have hlen : (serializeHeader ⟨a, b, c, d, e⟩ ++ rest).length = 20 + rest.length := by
    simp [length_serializeHeader]
  unfold parseHeader
  rw [if_pos (by rw [hlen]; unfold headerStructSize; omega)]
  have hs : serializeHeader ⟨a, b, c, d, e⟩ ++ rest =
      u32Bytes a ++ (u32Bytes b ++ (u32Bytes c ++ (u32Bytes d ++ (u32Bytes e ++ rest)))) := by
    simp [serializeHeader, List.append_assoc]
  rw [hs]
  have r0 : readU32 (u32Bytes a ++ (u32Bytes b ++ (u32Bytes c ++ (u32Bytes d ++
      (u32Bytes e ++ rest))))) 0 = a := readU32_u32Bytes_append _ h1
  have r4 : readU32 (u32Bytes a ++ (u32Bytes b ++ (u32Bytes c ++ (u32Bytes d ++
      (u32Bytes e ++ rest))))) 4 = b := by
    rw [readU32_append_right (by simp [u32Bytes])]
    simpa [u32Bytes] using @readU32_u32Bytes_append b
      (u32Bytes c ++ (u32Bytes d ++ (u32Bytes e ++ rest))) h2
  have r8 : readU32 (u32Bytes a ++ (u32Bytes b ++ (u32Bytes c ++ (u32Bytes d ++
      (u32Bytes e ++ rest))))) 8 = c := by
    rw [readU32_append_right (by simp [u32Bytes]), readU32_append_right (by simp [u32Bytes])]
    simpa [u32Bytes] using @readU32_u32Bytes_append c
      (u32Bytes d ++ (u32Bytes e ++ rest)) h3
  have r12 : readU32 (u32Bytes a ++ (u32Bytes b ++ (u32Bytes c ++ (u32Bytes d ++
      (u32Bytes e ++ rest))))) 12 = d := by
    rw [readU32_append_right (by simp [u32Bytes]), readU32_append_right (by simp [u32Bytes]),
      readU32_append_right (by simp [u32Bytes])]
    simpa [u32Bytes] using @readU32_u32Bytes_append d (u32Bytes e ++ rest) h4
  have r16 : readU32 (u32Bytes a ++ (u32Bytes b ++ (u32Bytes c ++ (u32Bytes d ++
      (u32Bytes e ++ rest))))) 16 = e := by
    rw [readU32_append_right (by simp [u32Bytes]), readU32_append_right (by simp [u32Bytes]),
      readU32_append_right (by simp [u32Bytes]), readU32_append_right (by simp [u32Bytes])]
    simpa [u32Bytes] using @readU32_u32Bytes_append e rest h5
  unfold headerOf
  rw [r0, r4, r8, r12, r16]

lemma pySlice_eq_take_drop (l : Bytes) (a b : Nat) :
    pySlice l a b = (l.drop a).take (b - a) := by
  unfold pySlice
  rw [List.drop_take]

lemma pySlice_append_pySlice {l : Bytes} {a b c : Nat} (h1 : a ≤ b) (h2 : b ≤ c) :
    pySlice l a b ++ pySlice l b c = pySlice l a c := by
  rw [pySlice_eq_take_drop, pySlice_eq_take_drop, pySlice_eq_take_drop]
  have hd : l.drop b = (l.drop a).drop (b - a) := by
    rw [List.drop_drop]
    congr 1
    omega
  rw [hd, ← List.take_add]
  congr 1
  omega

lemma pySlice_take4 {src : Bytes} {off : Nat} (h : off + 4 ≤ src.length) :
    pySlice src off (off + 4) =
      [src.getD off 0, src.getD (off + 1) 0, src.getD (off + 2) 0, src.getD (off + 3) 0] := by
  rw [pySlice_eq_take_drop]
  have e : off + 4 - off = 4 := by omega
  rw [e]
  rw [List.drop_eq_getElem_cons (by omega)]
  rw [show src.drop (off + 1) = src.drop (off + 1) from rfl,
    @List.drop_eq_getElem_cons _ (off + 1) src (by omega),
    @List.drop_eq_getElem_cons _ (off + 1 + 1) src (by omega),
    @List.drop_eq_getElem_cons _ (off + 1 + 1 + 1) src (by omega)]
  simp only [List.take_succ_cons, List.take_zero]
  rw [List.getD_eq_getElem _ _ (by omega : off < src.length),
    List.getD_eq_getElem _ _ (by omega : off + 1 < src.length),
    List.getD_eq_getElem _ _ (by omega : off + 2 < src.length),
    List.getD_eq_getElem _ _ (by omega : off + 3 < src.length)]

lemma u32Bytes_readU32 {src : Bytes} {off : Nat} (hb : ∀ x ∈ src, x < 256)
    (h : off + 4 ≤ src.length) :
    u32Bytes (readU32 src off) = pySlice src off (off + 4) := by
  have hx : ∀ k, k < src.length → src.getD k 0 < 256 := by
    intro k hk
    rw [List.getD_eq_getElem _ _ hk]
    exact hb _ (List.getElem_mem hk)
  unfold readU32
  rw [u32Bytes_be32 (hx _ (by omega)) (hx _ (by omega)) (hx _ (by omega)) (hx _ (by omega))]
  rw [pySlice_take4 h]

lemma serializeHeader_headerOf {src : Bytes} (hb : ∀ x ∈ src, x < 256)
    (hl : 20 ≤ src.length) :
    serializeHeader (headerOf src) = src.take 20 := by
  unfold serializeHeader headerOf
  simp only
  rw [u32Bytes_readU32 hb (by omega), u32Bytes_readU32 hb (by omega),
    u32Bytes_readU32 hb (by omega), u32Bytes_readU32 hb (by omega),
    u32Bytes_readU32 hb (by omega)]
  norm_num
  rw [pySlice_append_pySlice (by omega) (by omega)]
  rw [pySlice_append_pySlice (by omega) (by omega)]
  rw [pySlice_append_pySlice (by omega) (by omega)]
  rw [pySlice_append_pySlice (by omega) (by omega)]
  unfold pySlice
  simp

lemma headerOf_lt {src : Bytes} (hb : ∀ x ∈ src, x < 256) :
    (headerOf src).file_len < 4294967296 ∧ (headerOf src).file_ver < 4294967296 ∧
      (headerOf src).magic_num < 4294967296 ∧ (headerOf src).file_type < 4294967296 ∧
      (headerOf src).content_len < 4294967296 := by
  have hx : ∀ k, src.getD k 0 < 256 := by
    intro k
    rcases Nat.lt_or_ge k src.length with hk | hk
    · rw [List.getD_eq_getElem _ _ hk]
      exact hb _ (List.getElem_mem hk)
    · rw [List.getD_eq_getElem?_getD, List.getElem?_eq_none (by omega)]
      simp
  unfold headerOf readU32
  exact ⟨be32_lt (hx _) (hx _) (hx _) (hx _), be32_lt (hx _) (hx _) (hx _) (hx _),
    be32_lt (hx _) (hx _) (hx _) (hx _), be32_lt (hx _) (hx _) (hx _) (hx _),
    be32_lt (hx _) (hx _) (hx _) (hx _)⟩

lemma analyze_ok_facts {path : String} {src : Bytes} {info : ParseInfo}
    (h : analyze path src = .ok info) :
    20 ≤ src.length ∧
    info.header = headerOf src ∧
    ((headerOf src).file_len : Int) = (src.length : Int) - 4 ∧
    (headerOf src).magic_num = 806 ∧
    (headerOf src).file_type = 3 ∧
    ((headerOf src).content_len : Int) = (src.length : Int) - 24 ∧
    readU32 src (src.length - 4) = 1657 ∧
    rfindTerm src (src.length - 4) = some info.fterm_index ∧
    ((20 ≤ info.fterm_index - 2 ∧
        pySlice src (info.fterm_index - 2) info.fterm_index = CLASSIC_MODE_TAG ∧
        info.ctag_index = info.fterm_index - 2 ∧ info.from_mode = .CLASSIC) ∨
      (¬(20 ≤ info.fterm_index - 2 ∧
          pySlice src (info.fterm_index - 2) info.fterm_index = CLASSIC_MODE_TAG) ∧
        info.ctag_index = info.fterm_index ∧ info.from_mode = .BEYOND)) := by
  unfold analyze at h
  rw [FILE_LEN_EXCLUDED, headerStructSize, footerStructSize, HEADER_MAGIC_NUM,
    GIA_FILE_TYPE, FOOTER_MAGIC_NUM] at h
  split at h
  · exact (GRes.noConfusion h)
  next hne0 =>
  split at h
  · exact (GRes.noConfusion h)
  next hn20 =>
  split at h
  · exact (GRes.noConfusion h)
  next hfl =>
  split at h
  · exact (GRes.noConfusion h)
  next hmg =>
  split at h
  · exact (GRes.noConfusion h)
  next hft =>
  split at h
  · exact (GRes.noConfusion h)
  next hcl =>
  split at h
  · exact (GRes.noConfusion h)
  next hfm =>
  unfold detectMode at h
  rw [footerStructSize] at h
  split at h
  next hrf => exact (GRes.noConfusion h)
  next fterm hrf =>
  rw [headerStructSize] at h
  have hlen : 20 ≤ src.length := by omega
  have hfl' := not_not.mp hfl
  have hmg' := not_not.mp hmg
  have hft' := not_not.mp hft
  have hcl' := not_not.mp hcl
  have hfm' := not_not.mp hfm
  split at h
  next hc =>
    cases h
    refine ⟨hlen, rfl, by exact_mod_cast hfl', hmg', hft', ?_, hfm', hrf, ?_⟩
    · rw [hcl']
      push_cast
      ring
    · exact Or.inl ⟨hc.1, hc.2, rfl, rfl⟩
  next hc =>
    cases h
    refine ⟨hlen, rfl, by exact_mod_cast hfl', hmg', hft', ?_, hfm', hrf, ?_⟩
    · rw [hcl']
      push_cast
      ring
    · exact Or.inr ⟨hc, rfl, rfl⟩

lemma analyze_intro (path : String) {src : Bytes} {i : Nat}
    (hlen : 20 ≤ src.length)
    (h1 : ((headerOf src).file_len : Int) = (src.length : Int) - 4)
    (h2 : (headerOf src).magic_num = 806)
    (h3 : (headerOf src).file_type = 3)
    (h4 : ((headerOf src).content_len : Int) = (src.length : Int) - 24)
    (h5 : readU32 src (src.length - 4) = 1657)
    (h6 : rfindTerm src (src.length - 4) = some i) :
    analyze path src =
      (if 20 ≤ i - 2 ∧ pySlice src (i - 2) i = CLASSIC_MODE_TAG then
        .ok ⟨headerOf src, i, i - 2, .CLASSIC⟩
      else .ok ⟨headerOf src, i, i, .BEYOND⟩) := by
  unfold analyze detectMode
  rw [FILE_LEN_EXCLUDED, headerStructSize, footerStructSize, HEADER_MAGIC_NUM,
    GIA_FILE_TYPE, FOOTER_MAGIC_NUM]
  rw [if_neg (by omega : ¬ src.length = 0)]
  rw [if_neg (by omega : ¬ src.length < 20)]
  rw [if_neg (show ¬((headerOf src).file_len : Int) ≠ (src.length : Int) - ((4 : Nat) : Int) by
    push_cast
    rw [h1]
    simp)]
  rw [if_neg (not_not_intro h2)]
  rw [if_neg (not_not_intro h3)]
  rw [if_neg (show ¬((headerOf src).content_len : Int) ≠
      (src.length : Int) - ((20 : Nat) : Int) - ((4 : Nat) : Int) by
    push_cast
    rw [show (src.length : Int) - 20 - 4 = (src.length : Int) - 24 by ring, h4]
    simp)]
  rw [if_neg (not_not_intro h5)]
  split
  next j hj =>
    rw [h6] at hj
    cases hj
  next j hj =>
    rw [h6] at hj
    cases hj
    rfl

lemma take_append_of_le {l₁ l₂ : Bytes} {k : Nat} (h : k ≤ l₁.length) :
    (l₁ ++ l₂).take k = l₁.take k := by
  rw [List.take_append_eq_append_take]
  have e : k - l₁.length = 0 := by omega
  rw [e]
  simp

lemma take_append_exact {l₁ l₂ : Bytes} {k : Nat} (h : l₁.length = k) :
    (l₁ ++ l₂).take k = l₁ := by
  subst h
  exact List.take_left _ _

lemma drop_append_of_le {l₁ l₂ : Bytes} {k : Nat} (h : k ≤ l₁.length) :
    (l₁ ++ l₂).drop k = l₁.drop k ++ l₂ := by
  rw [List.drop_append_eq_append_drop]
  have e : k - l₁.length = 0 := by omega
  rw [e]
  simp

lemma drop_append_exact {l₁ l₂ : Bytes} {k : Nat} (h : l₁.length = k) :
    (l₁ ++ l₂).drop k = l₂ := by
  subst h
  exact List.drop_left _ _

lemma analyze_ok_bounds {path : String} {src : Bytes} {info : ParseInfo}
    (ha : analyze path src = .ok info) :
    24 ≤ src.length ∧ info.fterm_index + 6 ≤ src.length := by
  obtain ⟨hlen, _, _, _, _, hcl, _, hrf, _⟩ := analyze_ok_facts ha
  obtain ⟨hfb, _, _⟩ := rfindTerm_some_iff.mp hrf
  have hc0 : (0 : Int) ≤ ((headerOf src).content_len : Int) := Int.ofNat_nonneg _
  constructor
  · omega
  · omega

lemma convertInPlace_eq_convertCopy {path : String} {src : Bytes} {info : ParseInfo}
    {tm : AssetMode} (ha : analyze path src = .ok info) (hbody : 20 ≤ info.fterm_index) :
    convertInPlace src info tm = convertCopy src info tm := by
  obtain ⟨hlen, hhd, hfl, hmg, hft, hcl, hfm, hrf, hmode⟩ := analyze_ok_facts ha
  obtain ⟨h24, hfn⟩ := analyze_ok_bounds ha
  by_cases hsame : info.from_mode = tm
  · unfold convertInPlace convertCopy
    rw [if_pos hsame, if_pos hsame]
  cases tm
  next =>
    -- converting to Beyond: the source was detected Classic.
    obtain ⟨hc20, hslice, hctag, hfromC⟩ : 20 ≤ info.fterm_index - 2 ∧
        pySlice src (info.fterm_index - 2) info.fterm_index = CLASSIC_MODE_TAG ∧
        info.ctag_index = info.fterm_index - 2 ∧ info.from_mode = .CLASSIC := by
      rcases hmode with h | ⟨_, _, hB⟩
      · exact h
      · exact absurd (hB.trans rfl) hsame
    have hB' : pySlice src info.fterm_index
        (info.fterm_index + (src.length - info.fterm_index)) = src.drop info.fterm_index := by
      have e : info.fterm_index + (src.length - info.fterm_index) = src.length := by omega
      rw [e]
      unfold pySlice
      rw [List.take_length]
    have hC' : mmove src (info.fterm_index - 2) info.fterm_index
        (src.length - info.fterm_index) =
        src.take (info.fterm_index - 2) ++ src.drop info.fterm_index ++
          src.drop (src.length - 2) := by
      unfold mmove
      rw [hB']
      unfold setRange
      have e : info.fterm_index - 2 + (src.drop info.fterm_index).length =
          src.length - 2 := by
        rw [List.length_drop]
        omega
      rw [e]
    have hD' : resize (src.take (info.fterm_index - 2) ++ src.drop info.fterm_index ++
        src.drop (src.length - 2)) (src.length - 2) =
        src.take (info.fterm_index - 2) ++ src.drop info.fterm_index := by
      unfold resize
      rw [if_pos (by
        simp only [List.length_append, List.length_take, List.length_drop]
        omega)]
      exact take_append_exact (by
        simp only [List.length_append, List.length_take, List.length_drop]
        omega)
    have hE' : (src.take (info.fterm_index - 2) ++ src.drop info.fterm_index).drop 20 =
        pySlice src 20 (info.fterm_index - 2) ++ src.drop info.fterm_index := by
      rw [drop_append_of_le (by
        rw [List.length_take]
        omega)]
      rfl
    unfold convertInPlace convertCopy
    rw [if_neg hsame, if_neg hsame, if_neg (by decide : ¬ AssetMode.BEYOND = AssetMode.CLASSIC),
      if_neg (by decide : ¬ AssetMode.BEYOND = AssetMode.CLASSIC)]
    rw [hC', hD']
    unfold setRange
    rw [List.take_zero]
    have e0 : 0 + (serializeHeader (newHeader info.header AssetMode.BEYOND)).length = 20 := by
      rw [length_serializeHeader]
    rw [e0, hE', hctag]
    unfold headerStructSize
    simp [List.append_assoc]
  next =>
    -- converting to Classic: the source was detected Beyond, ctag = fterm.
    have hctag : info.ctag_index = info.fterm_index := by
      rcases hmode with ⟨_, _, _, hm⟩ | ⟨_, hc, _⟩
      · exact absurd (hm.trans rfl) hsame
      · exact hc
    have hA : resize src (src.length + 2) = src ++ [0, 0] := by
      unfold resize
      rw [if_neg (by omega)]
      have e : src.length + 2 - src.length = 2 := by omega
      rw [e]
      rfl
    have hB : pySlice (src ++ [0, 0]) info.fterm_index
        (info.fterm_index + (src.length - info.fterm_index)) =
        src.drop info.fterm_index := by
      have e : info.fterm_index + (src.length - info.fterm_index) = src.length := by omega
      rw [e]
      unfold pySlice
      rw [take_append_of_le (by omega), List.take_length]
    have hC : mmove (src ++ [0, 0]) (info.fterm_index + 2) info.fterm_index
        (src.length - info.fterm_index) =
        src.take (info.fterm_index + 2) ++ src.drop info.fterm_index := by
      unfold mmove
      rw [hB]
      unfold setRange
      rw [take_append_of_le (by omega : info.fterm_index + 2 ≤ src.length)]
      have e : info.fterm_index + 2 + (src.drop info.fterm_index).length =
          src.length + 2 := by
        rw [List.length_drop]
        omega
      rw [e, @List.drop_eq_nil_of_le _ (src ++ [0, 0]) (src.length + 2) (by
        rw [List.length_append]
        simp)]
      simp
    have hD : setRange (src.take (info.fterm_index + 2) ++ src.drop info.fterm_index)
        info.fterm_index CLASSIC_MODE_TAG =
        src.take info.fterm_index ++ [32, 1] ++ src.drop info.fterm_index := by
      unfold setRange CLASSIC_MODE_TAG
      rw [take_append_of_le (by
        rw [List.length_take]
        omega)]
      rw [List.take_take]
      have e1 : min info.fterm_index (info.fterm_index + 2) = info.fterm_index := by omega
      rw [e1]
      have e2 : info.fterm_index + (([32, 1] : Bytes)).length = info.fterm_index + 2 := rfl
      rw [e2]
      rw [drop_append_exact (by
        rw [List.length_take]
        omega)]
    have hE : (src.take info.fterm_index ++ [32, 1] ++ src.drop info.fterm_index).drop 20 =
        pySlice src 20 info.fterm_index ++ ([32, 1] ++ src.drop info.fterm_index) := by
      rw [drop_append_of_le (by
        simp only [List.length_append, List.length_take, List.length_cons, List.length_nil]
        omega)]
      rw [drop_append_of_le (by
        rw [List.length_take]
        omega)]
      simp [List.append_assoc, pySlice]
    unfold convertInPlace convertCopy
    rw [if_neg hsame, if_neg hsame, if_pos rfl, if_pos rfl]
    rw [hA, hC, hctag, hD]
    unfold setRange
    rw [List.take_zero]
    have e0 : 0 + (serializeHeader (newHeader info.header AssetMode.CLASSIC)).length = 20 := by
      rw [length_serializeHeader]
    rw [e0, hE]
    unfold headerStructSize CLASSIC_MODE_TAG
    simp [List.append_assoc]

end GIACC

namespace GIACC

lemma adjustField_pos (v : Nat) : adjustField v 2 = v + 2 := by
  unfold adjustField
  omega

lemma adjustField_neg (v : Nat) : adjustField v (-2) = v - 2 := by
  unfold adjustField
  omega

lemma newHeader_classic (h : Header) :
    newHeader h .CLASSIC =
      ⟨h.file_len + 2, h.file_ver, h.magic_num, h.file_type, h.content_len + 2⟩ := by
  unfold newHeader len_adjustment
  rw [adjustField_pos, adjustField_pos]

lemma newHeader_beyond (h : Header) :
    newHeader h .BEYOND =
      ⟨h.file_len - 2, h.file_ver, h.magic_num, h.file_type, h.content_len - 2⟩ := by
  unfold newHeader len_adjustment
  rw [adjustField_neg, adjustField_neg]

lemma newHeader_undo_CB (h : Header) :
    newHeader (newHeader h .CLASSIC) .BEYOND = h := by
  rw [newHeader_classic, newHeader_beyond]
  simp

lemma newHeader_undo_BC (h : Header) (h1 : 2 ≤ h.file_len) (h2 : 2 ≤ h.content_len) :
    newHeader (newHeader h .BEYOND) .CLASSIC = h := by
  obtain ⟨a, b, c, d, e⟩ := h
  simp only [Header.file_len, Header.content_len] at h1 h2
  rw [newHeader_beyond, newHeader_classic]
  simp only [Header.mk.injEq, and_true, true_and]
  constructor
  · omega
  · omega

lemma length_pySlice {l : Bytes} {a b : Nat} (hb : b ≤ l.length) (hab : a ≤ b) :
    (pySlice l a b).length = b - a := by
  rw [pySlice_eq_take_drop]
  simp only [List.length_take, List.length_drop]
  omega

lemma drop_split (src : Bytes) {a b : Nat} (hab : a ≤ b) :
    src.drop a = pySlice src a b ++ src.drop b := by
  rw [pySlice_eq_take_drop]
  have e : src.drop b = (src.drop a).drop (b - a) := by
    rw [List.drop_drop]
    congr 1
    omega
  rw [e, List.take_append_drop]

end GIACC

namespace GIACC

lemma convertCopy_toClassic_eq (hh : Header) {src : Bytes} {f : Nat} :
    convertCopy src ⟨hh, f, f, .BEYOND⟩ .CLASSIC =
      serializeHeader (newHeader hh .CLASSIC) ++
        (pySlice src 20 f ++ ([32, 1] ++ src.drop f)) := by
  unfold convertCopy
  rw [if_neg (by decide : ¬ AssetMode.BEYOND = AssetMode.CLASSIC), if_pos rfl]
  unfold headerStructSize CLASSIC_MODE_TAG
  simp [List.append_assoc]

lemma analyze_convertCopy_toClassic {path : String} {src : Bytes} {hh : Header} {f : Nat}
    (ha : analyze path src = .ok ⟨hh, f, f, .BEYOND⟩)
    (hbody : 20 ≤ f)
    (hbytes : ∀ x ∈ src, x < 256) (hlen32 : src.length ≤ 4294967296) :
    analyze path (convertCopy src ⟨hh, f, f, .BEYOND⟩ .CLASSIC) =
      .ok ⟨newHeader hh .CLASSIC, f + 2, f, .CLASSIC⟩ := by
  obtain ⟨hlen, hhd0, hfl, hmg, hft, hcl, hfm, hrf0, _⟩ := analyze_ok_facts ha
  obtain ⟨h24, hfn⟩ := analyze_ok_bounds ha
  have hhd : hh = headerOf src := hhd0
  subst hhd
  have hrf : rfindTerm src (src.length - 4) = some f := hrf0
  obtain ⟨hfb, hmatch, hmax⟩ := rfindTerm_some_iff.mp hrf
  have hfn' : f + 6 ≤ src.length := hfn
  have hflN : (headerOf src).file_len = src.length - 4 := by omega
  have hclN : (headerOf src).content_len = src.length - 24 := by omega
  rw [convertCopy_toClassic_eq (headerOf src)]
  set E := serializeHeader (newHeader (headerOf src) AssetMode.CLASSIC) with hE
  set M := pySlice src 20 f with hM
  set T := src.drop f with hT
  have hElen : E.length = 20 := length_serializeHeader _
  have hMlen : M.length = f - 20 := by
    rw [hM]
    exact length_pySlice (by omega) (by omega)
  have hTlen : T.length = src.length - f := by
    rw [hT]
    exact List.length_drop _ _
  have houtlen : (E ++ (M ++ ([32, 1] ++ T))).length = src.length + 2 := by
    simp only [List.length_append, List.length_cons, List.length_nil, hElen, hMlen, hTlen]
    omega
  have hdrop20 : (E ++ (M ++ ([32, 1] ++ T))).drop 20 = M ++ ([32, 1] ++ T) :=
    drop_append_exact hElen
  have hdropf : (E ++ (M ++ ([32, 1] ++ T))).drop f = [32, 1] ++ T := by
    have e : (E ++ (M ++ ([32, 1] ++ T))).drop f =
        ((E ++ (M ++ ([32, 1] ++ T))).drop 20).drop (f - 20) := by
      rw [List.drop_drop]
      congr 1
      omega
    rw [e, hdrop20, drop_append_exact hMlen]
  have hdropf2 : (E ++ (M ++ ([32, 1] ++ T))).drop (f + 2) = src.drop f := by
    have e : (E ++ (M ++ ([32, 1] ++ T))).drop (f + 2) =
        ((E ++ (M ++ ([32, 1] ++ T))).drop f).drop 2 := by
      rw [List.drop_drop]
    rw [e, hdropf, hT]
    rfl
  have hparse : parseHeader (E ++ (M ++ ([32, 1] ++ T))) =
      some (newHeader (headerOf src) .CLASSIC) := by
    rw [hE]
    apply parseHeader_serialize_append
    · rw [newHeader_classic]
      show (headerOf src).file_len + 2 < 4294967296
      omega
    · rw [newHeader_classic]
      exact (headerOf_lt hbytes).2.1
    · rw [newHeader_classic]
      exact (headerOf_lt hbytes).2.2.1
    · rw [newHeader_classic]
      exact (headerOf_lt hbytes).2.2.2.1
    · rw [newHeader_classic]
      show (headerOf src).content_len + 2 < 4294967296
      omega
  have hhOut : headerOf (E ++ (M ++ ([32, 1] ++ T))) = newHeader (headerOf src) .CLASSIC := by
    have hp2 := parseHeader_of_le
      (show headerStructSize ≤ (E ++ (M ++ ([32, 1] ++ T))).length by
        rw [houtlen, headerStructSize]
        omega)
    rw [hparse] at hp2
    exact (Option.some_inj.mp hp2).symm
  have hfoot : readU32 (E ++ (M ++ ([32, 1] ++ T)))
      ((E ++ (M ++ ([32, 1] ++ T))).length - 4) = 1657 := by
    rw [houtlen]
    rw [readU32_eq_of_drop_eq hdropf2 (show f + 2 ≤ src.length + 2 - 4 by omega)]
    have e : f + (src.length + 2 - 4 - (f + 2)) = src.length - 4 := by omega
    rw [e]
    exact hfm
  have hrfOut : rfindTerm (E ++ (M ++ ([32, 1] ++ T)))
      ((E ++ (M ++ ([32, 1] ++ T))).length - 4) = some (f + 2) := by
    rw [houtlen]
    apply rfindTerm_some_iff.mpr
    refine ⟨by omega, ?_, ?_⟩
    · rw [termMatchAt_eq_of_drop_eq hdropf2 (le_refl (f + 2))]
      have e : f + (f + 2 - (f + 2)) = f := by omega
      rw [e]
      exact hmatch
    · intro j hj hjb
      rw [termMatchAt_eq_of_drop_eq hdropf2 (show f + 2 ≤ j by omega)]
      have e : f + (j - (f + 2)) = j - 2 := by omega
      rw [e]
      exact hmax (j - 2) (by omega) (by omega)
  have htag : pySlice (E ++ (M ++ ([32, 1] ++ T))) (f + 2 - 2) (f + 2) = CLASSIC_MODE_TAG := by
    have e : f + 2 - 2 = f := by omega
    rw [e, pySlice_eq_take_drop, hdropf]
    have e2 : f + 2 - f = 2 := by omega
    rw [e2]
    rfl
  rw [analyze_intro path
    (by rw [houtlen]; omega)
    (by rw [hhOut, newHeader_classic, houtlen]; push_cast; omega)
    (by rw [hhOut, newHeader_classic]; exact hmg)
    (by rw [hhOut, newHeader_classic]; exact hft)
    (by rw [hhOut, newHeader_classic, houtlen]; push_cast; omega)
    hfoot hrfOut]
  rw [if_pos ⟨by omega, htag⟩, hhOut]
  have e : f + 2 - 2 = f := by omega
  rw [e]

end GIACC

namespace GIACC

lemma convertCopy_toBeyond_eq (hh : Header) {src : Bytes} {f c : Nat} :
    convertCopy src ⟨hh, f, c, .CLASSIC⟩ .BEYOND =
      serializeHeader (newHeader hh .BEYOND) ++ (pySlice src 20 c ++ src.drop f) := by
  unfold convertCopy
  rw [if_neg (by decide : ¬ AssetMode.CLASSIC = AssetMode.BEYOND),
    if_neg (by decide : ¬ AssetMode.BEYOND = AssetMode.CLASSIC)]
  unfold headerStructSize
  simp [List.append_assoc]

lemma convertCopy_undo_toBeyond {path : String} {src : Bytes} {hh : Header} {f : Nat}
    (ha : analyze path src = .ok ⟨hh, f, f, .BEYOND⟩)
    (hbody : 20 ≤ f) (hbytes : ∀ x ∈ src, x < 256) :
    convertCopy (convertCopy src ⟨hh, f, f, .BEYOND⟩ .CLASSIC)
      ⟨newHeader hh .CLASSIC, f + 2, f, .CLASSIC⟩ .BEYOND = src := by
  obtain ⟨hlen, hhd0, _, _, _, _, _, _, _⟩ := analyze_ok_facts ha
  obtain ⟨h24, hfn0⟩ := analyze_ok_bounds ha
  have hhd : hh = headerOf src := hhd0
  subst hhd
  have hfn : f + 6 ≤ src.length := hfn0
  rw [convertCopy_toClassic_eq (headerOf src),
    convertCopy_toBeyond_eq (newHeader (headerOf src) AssetMode.CLASSIC)]
  set E := serializeHeader (newHeader (headerOf src) AssetMode.CLASSIC) with hE
  set M := pySlice src 20 f with hM
  set T := src.drop f with hT
  have hElen : E.length = 20 := length_serializeHeader _
  have hMlen : M.length = f - 20 := by
    rw [hM]
    exact length_pySlice (by omega) (by omega)
  have hdrop20 : (E ++ (M ++ ([32, 1] ++ T))).drop 20 = M ++ ([32, 1] ++ T) :=
    drop_append_exact hElen
  have hdropf : (E ++ (M ++ ([32, 1] ++ T))).drop f = [32, 1] ++ T := by
    have e : (E ++ (M ++ ([32, 1] ++ T))).drop f =
        ((E ++ (M ++ ([32, 1] ++ T))).drop 20).drop (f - 20) := by
      rw [List.drop_drop]
      congr 1
      omega
    rw [e, hdrop20, drop_append_exact hMlen]
  have hdropf2 : (E ++ (M ++ ([32, 1] ++ T))).drop (f + 2) = src.drop f := by
    have e : (E ++ (M ++ ([32, 1] ++ T))).drop (f + 2) =
        ((E ++ (M ++ ([32, 1] ++ T))).drop f).drop 2 := by
      rw [List.drop_drop]
    rw [e, hdropf, hT]
    rfl
  have hms : pySlice (E ++ (M ++ ([32, 1] ++ T))) 20 f = M := by
    rw [pySlice_eq_take_drop, hdrop20]
    exact take_append_exact hMlen
  rw [newHeader_undo_CB, hms, hdropf2]
  rw [serializeHeader_headerOf hbytes (by omega)]
  rw [hM, ← drop_split src (show 20 ≤ f by omega)]
  rw [List.take_append_drop]

end GIACC

namespace GIACC

lemma analyze_convertCopy_toBeyond {path : String} {src : Bytes} {hh : Header} {f : Nat}
    (ha : analyze path src = .ok ⟨hh, f, f - 2, .CLASSIC⟩)
    (hbytes : ∀ x ∈ src, x < 256)
    (hnospur : ¬(20 ≤ f - 2 - 2 ∧ pySlice src (f - 2 - 2) (f - 2) = CLASSIC_MODE_TAG)) :
    analyze path (convertCopy src ⟨hh, f, f - 2, .CLASSIC⟩ .BEYOND) =
      .ok ⟨newHeader hh .BEYOND, f - 2, f - 2, .BEYOND⟩ := by
  obtain ⟨hlen, hhd0, hfl, hmg, hft, hcl, hfm, hrf0, hmode0⟩ := analyze_ok_facts ha
  obtain ⟨h24, hfn0⟩ := analyze_ok_bounds ha
  have hhd : hh = headerOf src := hhd0
  subst hhd
  have hrf : rfindTerm src (src.length - 4) = some f := hrf0
  obtain ⟨hfb, hmatch, hmax⟩ := rfindTerm_some_iff.mp hrf
  have hfn : f + 6 ≤ src.length := hfn0
  have hmode : 20 ≤ f - 2 ∧ pySlice src (f - 2) f = CLASSIC_MODE_TAG ∧
      (f - 2 : Nat) = f - 2 ∧ AssetMode.CLASSIC = AssetMode.CLASSIC := by
    rcases hmode0 with h | ⟨_, _, hB⟩
    · exact h
    · exact (AssetMode.noConfusion hB)
  obtain ⟨hc20, hslice, -, -⟩ := hmode
  have hflN : (headerOf src).file_len = src.length - 4 := by omega
  have hclN : (headerOf src).content_len = src.length - 24 := by omega
  rw [convertCopy_toBeyond_eq (headerOf src)]
  set E := serializeHeader (newHeader (headerOf src) AssetMode.BEYOND) with hE
  set M := pySlice src 20 (f - 2) with hM
  set T := src.drop f with hT
  have hElen : E.length = 20 := length_serializeHeader _
  have hMlen : M.length = f - 2 - 20 := by
    rw [hM]
    exact length_pySlice (by omega) (by omega)
  have hTlen : T.length = src.length - f := by
    rw [hT]
    exact List.length_drop _ _
  have houtlen : (E ++ (M ++ T)).length = src.length - 2 := by
    simp only [List.length_append, hElen, hMlen, hTlen]
    omega
  have hdrop20 : (E ++ (M ++ T)).drop 20 = M ++ T := drop_append_exact hElen
  have hdropc : (E ++ (M ++ T)).drop (f - 2) = src.drop f := by
    have e : (E ++ (M ++ T)).drop (f - 2) = ((E ++ (M ++ T)).drop 20).drop (f - 2 - 20) := by
      rw [List.drop_drop]
      congr 1
      omega
    rw [e, hdrop20, drop_append_exact hMlen, hT]
  have hparse : parseHeader (E ++ (M ++ T)) = some (newHeader (headerOf src) .BEYOND) := by
    rw [hE]
    apply parseHeader_serialize_append
    · rw [newHeader_beyond]
      show (headerOf src).file_len - 2 < 4294967296
      have := (headerOf_lt hbytes).1
      omega
    · rw [newHeader_beyond]
      exact (headerOf_lt hbytes).2.1
    · rw [newHeader_beyond]
      exact (headerOf_lt hbytes).2.2.1
    · rw [newHeader_beyond]
      exact (headerOf_lt hbytes).2.2.2.1
    · rw [newHeader_beyond]
      show (headerOf src).content_len - 2 < 4294967296
      have := (headerOf_lt hbytes).2.2.2.2
      omega
  have hhOut : headerOf (E ++ (M ++ T)) = newHeader (headerOf src) .BEYOND := by
    have hp2 := parseHeader_of_le
      (show headerStructSize ≤ (E ++ (M ++ T)).length by
        rw [houtlen, headerStructSize]
        omega)
    rw [hparse] at hp2
    exact (Option.some_inj.mp hp2).symm
  have hfoot : readU32 (E ++ (M ++ T)) ((E ++ (M ++ T)).length - 4) = 1657 := by
    rw [houtlen]
    rw [readU32_eq_of_drop_eq hdropc (show f - 2 ≤ src.length - 2 - 4 by omega)]
    have e : f + (src.length - 2 - 4 - (f - 2)) = src.length - 4 := by omega
    rw [e]
    exact hfm
  have hrfOut : rfindTerm (E ++ (M ++ T)) ((E ++ (M ++ T)).length - 4) = some (f - 2) := by
    rw [houtlen]
    apply rfindTerm_some_iff.mpr
    refine ⟨by omega, ?_, ?_⟩
    · rw [termMatchAt_eq_of_drop_eq hdropc (le_refl (f - 2))]
      have e : f + (f - 2 - (f - 2)) = f := by omega
      rw [e]
      exact hmatch
    · intro j hj hjb
      rw [termMatchAt_eq_of_drop_eq hdropc (show f - 2 ≤ j by omega)]
      have e : f + (j - (f - 2)) = j + 2 := by omega
      rw [e]
      exact hmax (j + 2) (by omega) (by omega)
  have htagOut : ¬(20 ≤ f - 2 - 2 ∧
      pySlice (E ++ (M ++ T)) (f - 2 - 2) (f - 2) = CLASSIC_MODE_TAG) := by
    rintro ⟨h20, hsl⟩
    apply hnospur
    refine ⟨h20, ?_⟩
    rw [← hsl]
    -- the two bytes [f-4, f-2) of the output lie inside M = src[20 : f-2)
    rw [pySlice_eq_take_drop, pySlice_eq_take_drop]
    have e1 : (E ++ (M ++ T)).drop (f - 2 - 2) =
        ((E ++ (M ++ T)).drop 20).drop (f - 2 - 2 - 20) := by
      rw [List.drop_drop]
      congr 1
      omega
    have e2 : src.drop (f - 2 - 2) = (src.drop 20).drop (f - 2 - 2 - 20) := by
      rw [List.drop_drop]
      congr 1
      omega
    rw [e1, e2, hdrop20]
    rw [drop_append_of_le (by omega : f - 2 - 2 - 20 ≤ M.length)]
    have hMd : M.drop (f - 2 - 2 - 20) = (src.drop (f - 2 - 2)).take 2 := by
      rw [hM, pySlice_eq_take_drop, List.drop_take, List.drop_drop]
      have e3 : 20 + (f - 2 - 2 - 20) = f - 2 - 2 := by omega
      have e4 : f - 2 - 20 - (f - 2 - 2 - 20) = 2 := by omega
      rw [e3, e4]
    rw [hMd]
    have e5 : f - 2 - (f - 2 - 2) = 2 := by omega
    rw [e5]
    rw [take_append_exact (by
      rw [List.length_take, List.length_drop]
      omega)]
    rw [List.drop_drop]
    congr 2
    omega
  rw [analyze_intro path
    (by rw [houtlen]; omega)
    (by rw [hhOut, newHeader_beyond, houtlen]
        show (((headerOf src).file_len - 2 : Nat) : Int) = ((src.length - 2 : Nat) : Int) - 4
        omega)
    (by rw [hhOut, newHeader_beyond]; exact hmg)
    (by rw [hhOut, newHeader_beyond]; exact hft)
    (by rw [hhOut, newHeader_beyond, houtlen]
        show (((headerOf src).content_len - 2 : Nat) : Int) = ((src.length - 2 : Nat) : Int) - 24
        omega)
    hfoot hrfOut]
  rw [if_neg htagOut, hhOut]

end GIACC

namespace GIACC

lemma convertCopy_undo_toClassic {path : String} {src : Bytes} {hh : Header} {f : Nat}
    (ha : analyze path src = .ok ⟨hh, f, f - 2, .CLASSIC⟩)
    (hbytes : ∀ x ∈ src, x < 256) :
    convertCopy (convertCopy src ⟨hh, f, f - 2, .CLASSIC⟩ .BEYOND)
      ⟨newHeader hh .BEYOND, f - 2, f - 2, .BEYOND⟩ .CLASSIC = src := by
  obtain ⟨hlen, hhd0, hfl, hmg, hft, hcl, hfm, hrf0, hmode0⟩ := analyze_ok_facts ha
  obtain ⟨h24, hfn0⟩ := analyze_ok_bounds ha
  have hhd : hh = headerOf src := hhd0
  subst hhd
  have hfn : f + 6 ≤ src.length := hfn0
  have hmode : 20 ≤ f - 2 ∧ pySlice src (f - 2) f = CLASSIC_MODE_TAG ∧
      (f - 2 : Nat) = f - 2 ∧ AssetMode.CLASSIC = AssetMode.CLASSIC := by
    rcases hmode0 with h | ⟨_, _, hB⟩
    · exact h
    · exact (AssetMode.noConfusion hB)
  obtain ⟨hc20, hslice, -, -⟩ := hmode
  have hflN : (headerOf src).file_len = src.length - 4 := by omega
  have hclN : (headerOf src).content_len = src.length - 24 := by omega
  rw [convertCopy_toBeyond_eq (headerOf src),
    convertCopy_toClassic_eq (newHeader (headerOf src) AssetMode.BEYOND)]
  set E := serializeHeader (newHeader (headerOf src) AssetMode.BEYOND) with hE
  set M := pySlice src 20 (f - 2) with hM
  set T := src.drop f with hT
  have hElen : E.length = 20 := length_serializeHeader _
  have hMlen : M.length = f - 2 - 20 := by
    rw [hM]
    exact length_pySlice (by omega) (by omega)
  have hdrop20 : (E ++ (M ++ T)).drop 20 = M ++ T := drop_append_exact hElen
  have hdropc : (E ++ (M ++ T)).drop (f - 2) = src.drop f := by
    have e : (E ++ (M ++ T)).drop (f - 2) = ((E ++ (M ++ T)).drop 20).drop (f - 2 - 20) := by
      rw [List.drop_drop]
      congr 1
      omega
    rw [e, hdrop20, drop_append_exact hMlen, hT]
  have hms : pySlice (E ++ (M ++ T)) 20 (f - 2) = M := by
    rw [pySlice_eq_take_drop, hdrop20]
    exact take_append_exact hMlen
  rw [newHeader_undo_BC (headerOf src) (by omega) (by omega), hms, hdropc]
  rw [serializeHeader_headerOf hbytes (by omega)]
  have hsplit2 : ([32, 1] : Bytes) ++ src.drop f = src.drop (f - 2) := by
    rw [drop_split src (show f - 2 ≤ f by omega), hslice]
    rfl
  rw [hsplit2, hM, ← drop_split src (show 20 ≤ f - 2 by omega)]
  rw [List.take_append_drop]

end GIACC

namespace GIACC

lemma do_giacc_convert_ok {path : String} {src : Bytes} {info : ParseInfo}
    (tm : AssetMode) (d : Bool) (ha : analyze path src = .ok info) :
    do_giacc_convert path src (some tm) d =
      if d then .ok ⟨src, some (convertCopy src info tm)⟩
      else .ok ⟨convertInPlace src info tm, none⟩ := by
  unfold do_giacc_convert
  split
  next e he =>
    rw [ha] at he
    cases he
  next info' hinfo =>
    rw [ha] at hinfo
    cases hinfo
    rfl

lemma do_giacc_convert_error {path : String} {src : Bytes} {e : GiaError}
    (tm : Option AssetMode) (d : Bool) (ha : analyze path src = .error e) :
    do_giacc_convert path src tm d = .error e := by
  unfold do_giacc_convert
  split
  next e' he =>
    rw [ha] at he
    cases he
    rfl
  next info hinfo =>
    rw [ha] at hinfo
    cases hinfo

lemma do_giacc_convert_query {path : String} {src : Bytes} {info : ParseInfo}
    (ha : analyze path src = .ok info) :
    do_giacc_convert path src none false = .ok ⟨src, none⟩ := by
  unfold do_giacc_convert
  rw [ha]

lemma outputOf_ok (r : ConvertResult) : outputOf (.ok r) = r.dstFinal := rfl

lemma roundTripCopy_eq {path : String} {src : Bytes} {info : ParseInfo}
    (ha : analyze path src = .ok info) :
    roundTripCopy path src =
      outputOf (do_giacc_convert path
        (convertCopy src info (otherModeOf info.from_mode)) (some info.from_mode) true) := by
  unfold roundTripCopy
  split
  next e he =>
    rw [ha] at he
    cases he
  next info' hinfo =>
    rw [ha] at hinfo
    cases hinfo
    rw [do_giacc_convert_ok (otherModeOf info.from_mode) true ha]
    rfl

end GIACC

namespace GIACC

/-- C1 (amended): for a valid container whose terminator anchor lies in the
body (`20 ≤ fterm_index`), whose total length leaves the adjusted 32-bit
length fields in range, and which — when detected Classic — does not carry a
second ModeTag byte pair immediately before its tag at index ≥ 20, converting
to the other mode into a distinct destination and back again reproduces the
source bytes exactly. -/
theorem C1_round_trip_amended (path : String) (src : Bytes) (info : ParseInfo)
    (ha : analyze path src = .ok info)
    (hbytes : ∀ x ∈ src, x < 256)
    (hlen32 : src.length ≤ 4294967296)
    (hbody : 20 ≤ info.fterm_index)
    (hnospur : info.from_mode = .CLASSIC →
      ¬(20 ≤ info.ctag_index - 2 ∧
        pySlice src (info.ctag_index - 2) info.ctag_index = CLASSIC_MODE_TAG)) :
    roundTripCopy path src = some src := by
  obtain ⟨-, -, -, -, -, -, -, -, hmode⟩ := analyze_ok_facts ha
  rcases info with ⟨hh, f, c, m⟩
  cases m
  · -- detected Beyond: convert to Classic, then back.
    have hc : c = f := by
      rcases hmode with ⟨-, -, -, hC⟩ | ⟨-, hc, -⟩
      · exact (AssetMode.noConfusion hC)
      · exact hc
    subst hc
    rw [roundTripCopy_eq ha]
    show outputOf (do_giacc_convert path (convertCopy src ⟨hh, c, c, .BEYOND⟩ .CLASSIC)
      (some .BEYOND) true) = some src
    rw [do_giacc_convert_ok AssetMode.BEYOND true
      (analyze_convertCopy_toClassic ha hbody hbytes hlen32)]
    rw [if_pos rfl, outputOf_ok]
    exact congrArg some (convertCopy_undo_toBeyond ha hbody hbytes)
  · -- detected Classic: convert to Beyond, then back.
    have hc : c = f - 2 ∧ 20 ≤ f - 2 := by
      rcases hmode with ⟨h20, -, hc, -⟩ | ⟨-, -, hB⟩
      · exact ⟨hc, h20⟩
      · exact (AssetMode.noConfusion hB)
    obtain ⟨hc1, hc2⟩ := hc
    subst hc1
    have hns : ¬(20 ≤ f - 2 - 2 ∧ pySlice src (f - 2 - 2) (f - 2) = CLASSIC_MODE_TAG) :=
      hnospur rfl
    rw [roundTripCopy_eq ha]
    show outputOf (do_giacc_convert path (convertCopy src ⟨hh, f, f - 2, .CLASSIC⟩ .BEYOND)
      (some .CLASSIC) true) = some src
    rw [do_giacc_convert_ok AssetMode.CLASSIC true
      (analyze_convertCopy_toBeyond ha hbytes hns)]
    rw [if_pos rfl, outputOf_ok]
    exact congrArg some (convertCopy_undo_toClassic ha hbytes)

/-- Witness for C1: the minimal Beyond container round-trips to itself. -/
theorem C1_witness :
    roundTripCopy "w.gia" fileBeyond = some fileBeyond :=
  C1_round_trip_amended "w.gia" fileBeyond ⟨⟨22, 0, 806, 3, 2⟩, 20, 20, .BEYOND⟩
    (by decide) (by decide) (by decide) (by decide)
    (fun h => (AssetMode.noConfusion h))

/-- Counterexample to C1 as stated: `fileDoubleTag` is a valid Classic
container (header and footer checks pass, exactly one terminator, a tag right
before it), yet the round trip returns a file that is not byte-identical to
it: removing the tag exposes the second `20 01` pair, the intermediate file is
detected as Classic again, and the second convert is a no-op copy. -/
theorem C1_counterexample :
    analyze "c.gia" fileDoubleTag = .ok ⟨⟨26, 0, 806, 3, 6⟩, 24, 22, .CLASSIC⟩ ∧
    (roundTripCopy "c.gia" fileDoubleTag).map (fun o => o == fileDoubleTag) = some false := by
  constructor
  · decide
  · decide

end GIACC

namespace GIACC

lemma specHeaderConsistent_of {o : Bytes} {h : Header}
    (hp : parseHeader o = some h)
    (h1 : (h.file_len : Int) = (o.length : Int) - 4)
    (h2 : (h.content_len : Int) = (o.length : Int) - 24) :
    specHeaderConsistent o = true := by
  unfold specHeaderConsistent
  split
  next h' hp' =>
    rw [hp] at hp'
    cases hp'
    simp [h1, h2]
  next hp' =>
    rw [hp] at hp'
    cases hp'

lemma convertCopy_toClassic_shape {path : String} {src : Bytes} {hh : Header} {f : Nat}
    (ha : analyze path src = .ok ⟨hh, f, f, .BEYOND⟩)
    (hbody : 20 ≤ f)
    (hbytes : ∀ x ∈ src, x < 256) (hlen32 : src.length ≤ 4294967296) :
    parseHeader (convertCopy src ⟨hh, f, f, .BEYOND⟩ .CLASSIC) =
      some (newHeader (headerOf src) .CLASSIC) ∧
    (convertCopy src ⟨hh, f, f, .BEYOND⟩ .CLASSIC).length = src.length + 2 := by
  obtain ⟨hlen, hhd0, hfl, hmg, hft, hcl, hfm, hrf0, _⟩ := analyze_ok_facts ha
  obtain ⟨h24, hfn0⟩ := analyze_ok_bounds ha
  have hhd : hh = headerOf src := hhd0
  subst hhd
  have hfn : f + 6 ≤ src.length := hfn0
  have hflN : (headerOf src).file_len = src.length - 4 := by omega
  have hclN : (headerOf src).content_len = src.length - 24 := by omega
  rw [convertCopy_toClassic_eq (headerOf src)]
  have hMlen : (pySlice src 20 f).length = f - 20 := length_pySlice (by omega) (by omega)
  constructor
  · apply parseHeader_serialize_append
    · rw [newHeader_classic]
      show (headerOf src).file_len + 2 < 4294967296
      omega
    · rw [newHeader_classic]
      exact (headerOf_lt hbytes).2.1
    · rw [newHeader_classic]
      exact (headerOf_lt hbytes).2.2.1
    · rw [newHeader_classic]
      exact (headerOf_lt hbytes).2.2.2.1
    · rw [newHeader_classic]
      show (headerOf src).content_len + 2 < 4294967296
      omega
  · simp only [List.length_append, List.length_cons, List.length_nil, List.length_drop,
      length_serializeHeader, hMlen]
    omega

lemma convertCopy_toBeyond_shape {path : String} {src : Bytes} {hh : Header} {f : Nat}
    (ha : analyze path src = .ok ⟨hh, f, f - 2, .CLASSIC⟩)
    (hbytes : ∀ x ∈ src, x < 256) :
    parseHeader (convertCopy src ⟨hh, f, f - 2, .CLASSIC⟩ .BEYOND) =
      some (newHeader (headerOf src) .BEYOND) ∧
    (convertCopy src ⟨hh, f, f - 2, .CLASSIC⟩ .BEYOND).length = src.length - 2 := by
  obtain ⟨hlen, hhd0, hfl, hmg, hft, hcl, hfm, hrf0, hmode0⟩ := analyze_ok_facts ha
  obtain ⟨h24, hfn0⟩ := analyze_ok_bounds ha
  have hhd : hh = headerOf src := hhd0
  subst hhd
  have hfn : f + 6 ≤ src.length := hfn0
  have hc20 : 20 ≤ f - 2 := by
    rcases hmode0 with ⟨h20, -, -, -⟩ | ⟨-, -, hB⟩
    · exact h20
    · exact (AssetMode.noConfusion hB)
  rw [convertCopy_toBeyond_eq (headerOf src)]
  have hMlen : (pySlice src 20 (f - 2)).length = f - 2 - 20 :=
    length_pySlice (by omega) (by omega)
  constructor
  · apply parseHeader_serialize_append
    · rw [newHeader_beyond]
      show (headerOf src).file_len - 2 < 4294967296
      have := (headerOf_lt hbytes).1
      omega
    · rw [newHeader_beyond]
      exact (headerOf_lt hbytes).2.1
    · rw [newHeader_beyond]
      exact (headerOf_lt hbytes).2.2.1
    · rw [newHeader_beyond]
      exact (headerOf_lt hbytes).2.2.2.1
    · rw [newHeader_beyond]
      show (headerOf src).content_len - 2 < 4294967296
      have := (headerOf_lt hbytes).2.2.2.2
      omega
  · simp only [List.length_append, List.length_drop, length_serializeHeader, hMlen]
    omega

lemma specHeaderConsistent_convertCopy {path : String} {src : Bytes} {info : ParseInfo}
    {tm : AssetMode}
    (ha : analyze path src = .ok info)
    (hbytes : ∀ x ∈ src, x < 256) (hlen32 : src.length ≤ 4294967296)
    (hbody : 20 ≤ info.fterm_index) :
    specHeaderConsistent (convertCopy src info tm) = true := by
  obtain ⟨hlen, hhd, hfl, hmg, hft, hcl, hfm, hrf, hmode⟩ := analyze_ok_facts ha
  obtain ⟨h24, hfn⟩ := analyze_ok_bounds ha
  by_cases hsame : info.from_mode = tm
  · have hcc : convertCopy src info tm = src := by
      unfold convertCopy
      rw [if_pos hsame]
    rw [hcc]
    exact specHeaderConsistent_of (parseHeader_of_le (by rw [headerStructSize]; omega))
      hfl hcl
  · rcases info with ⟨hh, f, c, m⟩
    cases m
    · -- from Beyond, converting to Classic
      have hc : c = f := by
        rcases hmode with ⟨-, -, -, hC⟩ | ⟨-, hc, -⟩
        · exact (AssetMode.noConfusion hC)
        · exact hc
      subst hc
      have htm : tm = AssetMode.CLASSIC := by
        cases tm
        · exact absurd rfl hsame
        · rfl
      subst htm
      obtain ⟨hp, hl⟩ := convertCopy_toClassic_shape ha hbody hbytes hlen32
      apply specHeaderConsistent_of hp
      · rw [newHeader_classic, hl]
        show (((headerOf src).file_len + 2 : Nat) : Int) = ((src.length + 2 : Nat) : Int) - 4
        omega
      · rw [newHeader_classic, hl]
        show (((headerOf src).content_len + 2 : Nat) : Int) = ((src.length + 2 : Nat) : Int) - 24
        omega
    · -- from Classic, converting to Beyond
      have hc : c = f - 2 := by
        rcases hmode with ⟨-, -, hc, -⟩ | ⟨-, -, hB⟩
        · exact hc
        · exact (AssetMode.noConfusion hB)
      subst hc
      have htm : tm = AssetMode.BEYOND := by
        cases tm
        · rfl
        · exact absurd rfl hsame
      subst htm
      obtain ⟨hp, hl⟩ := convertCopy_toBeyond_shape ha hbytes
      apply specHeaderConsistent_of hp
      · rw [newHeader_beyond, hl]
        show (((headerOf src).file_len - 2 : Nat) : Int) = ((src.length - 2 : Nat) : Int) - 4
        omega
      · rw [newHeader_beyond, hl]
        show (((headerOf src).content_len - 2 : Nat) : Int) = ((src.length - 2 : Nat) : Int) - 24
        omega

end GIACC

namespace GIACC

/-- C7 (amended): after every conversion that completes, on a source whose
terminator anchor lies in the body (`20 ≤ fterm_index`, automatic for every
container matching the documented layout) and whose length keeps the 32-bit
fields in range, the produced output satisfies `file_len = totalLength - 4`
and `content_len = totalLength - 24`.  This covers the in-place path, the
copy path, and the no-change path. -/
theorem C7_header_consistency_amended (path : String) (src : Bytes) (info : ParseInfo)
    (tm : AssetMode) (d : Bool) (res : ConvertResult)
    (ha : analyze path src = .ok info)
    (hbytes : ∀ x ∈ src, x < 256)
    (hlen32 : src.length ≤ 4294967296)
    (hbody : 20 ≤ info.fterm_index)
    (hr : do_giacc_convert path src (some tm) d = .ok res) :
    specHeaderConsistent (producedOutput res) = true := by
  rw [do_giacc_convert_ok tm d ha] at hr
  cases d
  · rw [if_neg (by simp)] at hr
    cases hr
    show specHeaderConsistent (convertInPlace src info tm) = true
    rw [convertInPlace_eq_convertCopy ha hbody]
    exact specHeaderConsistent_convertCopy ha hbytes hlen32 hbody
  · rw [if_pos rfl] at hr
    cases hr
    show specHeaderConsistent (convertCopy src info tm) = true
    exact specHeaderConsistent_convertCopy ha hbytes hlen32 hbody

/-- Witness for C7: converting the minimal Beyond file to Classic into a
distinct destination produces `fileClassic`, which satisfies both length
equations. -/
theorem C7_witness :
    specHeaderConsistent (producedOutput ⟨fileBeyond, some fileClassic⟩) = true :=
  C7_header_consistency_amended "w.gia" fileBeyond ⟨⟨22, 0, 806, 3, 2⟩, 20, 20, .BEYOND⟩
    .CLASSIC true ⟨fileBeyond, some fileClassic⟩
    (by decide) (by decide) (by decide) (by decide) (by decide)

/-- Counterexample to C7 as stated: `fileTermInHeader` passes every check
(its only terminator occurrence sits inside the header's `file_ver` field),
its conversion to Classic into a distinct destination completes successfully,
yet the destination violates both header-length equations. -/
theorem C7_counterexample :
    (outputOf (do_giacc_convert "p.gia" fileTermInHeader (some .CLASSIC) true)).map
      specHeaderConsistent = some false := by
  decide

end GIACC

namespace GIACC

/-- C4: for a valid source made of byte values whose terminator anchor lies
in the body (the documented layout) and whose total length is at most 2^32 —
the region where the mod-2^32 field encoding coincides with `struct.pack`,
which on a longer file would instead abort in both forms — converting in
place rewrites the source to exactly the same bytes that converting into a
distinct destination writes there, while the distinct-destination run leaves
the source intact. -/
theorem C4_inplace_eq_copy (path : String) (src : Bytes) (info : ParseInfo)
    (tm : AssetMode)
    (ha : analyze path src = .ok info)
    (hbytes : ∀ x ∈ src, x < 256)
    (hlen32 : src.length ≤ 4294967296)
    (hbody : 20 ≤ info.fterm_index) :
    do_giacc_convert path src (some tm) false = .ok ⟨convertCopy src info tm, none⟩ ∧
    do_giacc_convert path src (some tm) true = .ok ⟨src, some (convertCopy src info tm)⟩ := by
  constructor
  · rw [do_giacc_convert_ok tm false ha, if_neg (by simp),
      convertInPlace_eq_convertCopy ha hbody]
  · rw [do_giacc_convert_ok tm true ha, if_pos rfl]

/-- Witness for C4: converting the minimal Beyond file to Classic. -/
theorem C4_witness :
    do_giacc_convert "w.gia" fileBeyond (some .CLASSIC) false =
      .ok ⟨convertCopy fileBeyond ⟨⟨22, 0, 806, 3, 2⟩, 20, 20, .BEYOND⟩ .CLASSIC, none⟩ ∧
    do_giacc_convert "w.gia" fileBeyond (some .CLASSIC) true =
      .ok ⟨fileBeyond,
        some (convertCopy fileBeyond ⟨⟨22, 0, 806, 3, 2⟩, 20, 20, .BEYOND⟩ .CLASSIC)⟩ :=
  C4_inplace_eq_copy "w.gia" fileBeyond ⟨⟨22, 0, 806, 3, 2⟩, 20, 20, .BEYOND⟩ .CLASSIC
    (by decide) (by decide) (by decide) (by decide)

/-- C8: when the detected mode already equals the requested target mode, a
distinct destination receives a byte-identical copy of the source, and an
in-place conversion leaves the source bytes unchanged. -/
theorem C8_idempotent (path : String) (src : Bytes) (info : ParseInfo) (tm : AssetMode)
    (ha : analyze path src = .ok info) (hsame : info.from_mode = tm) :
    do_giacc_convert path src (some tm) true = .ok ⟨src, some src⟩ ∧
    do_giacc_convert path src (some tm) false = .ok ⟨src, none⟩ := by
  have hcc : convertCopy src info tm = src := by
    unfold convertCopy
    rw [if_pos hsame]
  have hip : convertInPlace src info tm = src := by
    unfold convertInPlace
    rw [if_pos hsame]
  constructor
  · rw [do_giacc_convert_ok tm true ha, if_pos rfl, hcc]
  · rw [do_giacc_convert_ok tm false ha, if_neg (by simp), hip]

/-- Witness for C8: requesting Beyond on the already-Beyond minimal file. -/
theorem C8_witness :
    do_giacc_convert "w.gia" fileBeyond (some .BEYOND) true =
      .ok ⟨fileBeyond, some fileBeyond⟩ ∧
    do_giacc_convert "w.gia" fileBeyond (some .BEYOND) false =
      .ok ⟨fileBeyond, none⟩ :=
  C8_idempotent "w.gia" fileBeyond ⟨⟨22, 0, 806, 3, 2⟩, 20, 20, .BEYOND⟩ .BEYOND
    (by decide) rfl

/-- C10: every file accepted by validation is at least 24 bytes long (its
20-byte header and 4-byte footer regions cannot overlap), because the
unsigned `content_len` field must equal `totalLength - 20 - 4`. -/
theorem C10_min_length (path : String) (src : Bytes) (info : ParseInfo)
    (ha : analyze path src = .ok info) :
    24 ≤ src.length ∧
    ((headerOf src).content_len : Int) = (src.length : Int) - 24 := by
  obtain ⟨-, -, -, -, -, hcl, -, -, -⟩ := analyze_ok_facts ha
  obtain ⟨h24, -⟩ := analyze_ok_bounds ha
  exact ⟨h24, hcl⟩

/-- Witness for C10 at the minimal Beyond container. -/
theorem C10_witness :
    24 ≤ fileBeyond.length ∧
    ((headerOf fileBeyond).content_len : Int) = (fileBeyond.length : Int) - 24 :=
  C10_min_length "w.gia" fileBeyond ⟨⟨22, 0, 806, 3, 2⟩, 20, 20, .BEYOND⟩ (by decide)

end GIACC

namespace GIACC

/-- C6: for an accepted source made of byte values, of total length at most
2^32 — the region where the mod-2^32 field encoding coincides with
`struct.pack`, which on a longer file would instead abort before writing any
destination byte — whose detected mode differs from the target, the distinct
destination receives exactly: the serialized header with both length fields
adjusted by +2 (Classic target) or -2 (Beyond target) and the other three
fields unchanged, then the source bytes `[20, ctag_index)`, then the tag
bytes `20 01` exactly when the target is Classic, then the source bytes from
`fterm_index` to the end. -/
theorem C6_edit_plan (path : String) (src : Bytes) (info : ParseInfo) (tm : AssetMode)
    (ha : analyze path src = .ok info)
    (hbytes : ∀ x ∈ src, x < 256)
    (hlen32 : src.length ≤ 4294967296)
    (hne : ¬ info.from_mode = tm) :
    do_giacc_convert path src (some tm) true =
      .ok ⟨src, some (
        serializeHeader ⟨(if tm = AssetMode.CLASSIC then info.header.file_len + 2
            else info.header.file_len - 2),
          info.header.file_ver, info.header.magic_num, info.header.file_type,
          (if tm = AssetMode.CLASSIC then info.header.content_len + 2
            else info.header.content_len - 2)⟩ ++
        (pySlice src 20 info.ctag_index ++
          ((if tm = AssetMode.CLASSIC then CLASSIC_MODE_TAG else ([] : Bytes)) ++
            src.drop info.fterm_index)))⟩ := by
  rw [do_giacc_convert_ok tm true ha, if_pos rfl]
  unfold convertCopy
  rw [if_neg hne]
  unfold headerStructSize
  cases tm
  · rw [newHeader_beyond]
    simp
  · rw [newHeader_classic]
    simp

/-- Witness for C6: the minimal Beyond file converted to Classic. -/
theorem C6_witness :
    do_giacc_convert "w.gia" fileBeyond (some .CLASSIC) true =
      .ok ⟨fileBeyond, some (
        serializeHeader ⟨(if AssetMode.CLASSIC = AssetMode.CLASSIC then 22 + 2 else 22 - 2),
          0, 806, 3,
          (if AssetMode.CLASSIC = AssetMode.CLASSIC then 2 + 2 else 2 - 2)⟩ ++
        (pySlice fileBeyond 20 20 ++
          ((if AssetMode.CLASSIC = AssetMode.CLASSIC then CLASSIC_MODE_TAG else ([] : Bytes)) ++
            fileBeyond.drop 20)))⟩ :=
  C6_edit_plan "w.gia" fileBeyond ⟨⟨22, 0, 806, 3, 2⟩, 20, 20, .BEYOND⟩ .CLASSIC
    (by decide) (by decide) (by decide) (by decide)

end GIACC

namespace GIACC

lemma structChecks_facts {src : Bytes} (hc : structChecks src = true) :
    20 ≤ src.length ∧
    ((headerOf src).file_len : Int) = (src.length : Int) - 4 ∧
    (headerOf src).magic_num = 806 ∧ (headerOf src).file_type = 3 ∧
    ((headerOf src).content_len : Int) = (src.length : Int) - 24 ∧
    readU32 src (src.length - 4) = 1657 := by
  unfold structChecks at hc
  rw [headerStructSize, footerStructSize, FILE_LEN_EXCLUDED, HEADER_MAGIC_NUM,
    GIA_FILE_TYPE, FOOTER_MAGIC_NUM] at hc
  simp only [Bool.and_eq_true, beq_iff_eq, decide_eq_true_eq] at hc
  obtain ⟨⟨⟨⟨⟨h1, h2⟩, h3⟩, h4⟩, h5⟩, h6⟩ := hc
  refine ⟨h1, by push_cast at h2 ⊢; omega, h3, h4, ?_, h6⟩
  push_cast at h5 ⊢
  omega

lemma analyze_of_checks (path : String) {src : Bytes}
    (hlen : 20 ≤ src.length)
    (h1 : ((headerOf src).file_len : Int) = (src.length : Int) - 4)
    (h2 : (headerOf src).magic_num = 806)
    (h3 : (headerOf src).file_type = 3)
    (h4 : ((headerOf src).content_len : Int) = (src.length : Int) - 24)
    (h5 : readU32 src (src.length - 4) = 1657) :
    analyze path src = detectMode path src (headerOf src) := by
  unfold analyze
  rw [FILE_LEN_EXCLUDED, headerStructSize, footerStructSize, HEADER_MAGIC_NUM,
    GIA_FILE_TYPE, FOOTER_MAGIC_NUM]
  rw [if_neg (by omega : ¬ src.length = 0), if_neg (by omega : ¬ src.length < 20)]
  rw [if_neg (show ¬((headerOf src).file_len : Int) ≠ (src.length : Int) - ((4 : Nat) : Int) by
    push_cast
    rw [h1]
    simp)]
  rw [if_neg (not_not_intro h2), if_neg (not_not_intro h3)]
  rw [if_neg (show ¬((headerOf src).content_len : Int) ≠
      (src.length : Int) - ((20 : Nat) : Int) - ((4 : Nat) : Int) by
    push_cast
    rw [show (src.length : Int) - 20 - 4 = (src.length : Int) - 24 by ring, h4]
    simp)]
  rw [if_neg (not_not_intro h5)]

/-- C2 (amended): the backward scan for the terminator runs over the whole
region below the footer with lower bound 0, not the header end: whenever the
header and footer record checks pass, the conversion fails with InvalidFormat
exactly when `2A 05` occurs nowhere in `[0, totalLength - 4)`, and otherwise
the last occurrence anywhere in that range — including inside the 20-byte
header — becomes the anchor `fterm_index`. -/
theorem C2_scan_amended (path : String) (src : Bytes) (hc : structChecks src = true) :
    ((∀ j, j + 2 ≤ src.length - 4 → termMatchAt src j = false) →
      analyze path src = .error (.invalidFormat path)) ∧
    (∀ i, termMatchAt src i = true → i + 2 ≤ src.length - 4 →
      (∀ j, i < j → j + 2 ≤ src.length - 4 → termMatchAt src j = false) →
      ∃ info, analyze path src = .ok info ∧ info.fterm_index = i) := by
  obtain ⟨hlen, h1, h2, h3, h4, h5⟩ := structChecks_facts hc
  constructor
  · intro hnone
    rw [analyze_of_checks path hlen h1 h2 h3 h4 h5]
    unfold detectMode
    rw [footerStructSize, rfindTerm_none_iff.mpr hnone]
  · intro i hm hb hlast
    rw [analyze_intro path hlen h1 h2 h3 h4 h5 (rfindTerm_some_iff.mpr ⟨hb, hm, hlast⟩)]
    by_cases hcond : 20 ≤ i - 2 ∧ pySlice src (i - 2) i = CLASSIC_MODE_TAG
    · rw [if_pos hcond]
      exact ⟨_, rfl, rfl⟩
    · rw [if_neg hcond]
      exact ⟨_, rfl, rfl⟩

/-- Witness for C2: a structurally sound file with no terminator anywhere is
rejected with InvalidFormat. -/
theorem C2_witness : analyze "n.gia" fileNoTerm = .error (.invalidFormat "n.gia") :=
  (C2_scan_amended "n.gia" fileNoTerm (by decide)).1 (by
    intro j hj
    have hj' : j ≤ 18 := by
      have hl : fileNoTerm.length = 24 := by decide
      omega
    interval_cases j <;> decide)

/-- Counterexample to C2 as stated: `fileTermInHeader`'s only `2A 05` pair
sits at index 4, inside the 20-byte header (in `file_ver`), yet the file is
accepted with that in-header index as the anchor instead of failing. -/
theorem C2_counterexample :
    analyze "h.gia" fileTermInHeader =
      .ok ⟨⟨20, 704970752, 806, 3, 0⟩, 4, 4, .BEYOND⟩ ∧ (4 : Nat) < 20 := by
  constructor
  · decide
  · decide

/-- C9: terminator uniqueness is never validated.  Whenever the header and
footer checks pass and `i` is the last index in `[0, totalLength - 4)` where
`2A 05` occurs, the file is accepted outright — regardless of how many other
occurrences or stray `20 01` pairs the body contains — with anchor `i`, and
the detected mode depends only on the two bytes immediately before `i`. -/
theorem C9_last_occurrence (path : String) (src : Bytes) (i : Nat)
    (hc : structChecks src = true)
    (hm : termMatchAt src i = true) (hb : i + 2 ≤ src.length - 4)
    (hlast : ∀ j, i < j → j + 2 ≤ src.length - 4 → termMatchAt src j = false) :
    analyze path src =
      (if 20 ≤ i - 2 ∧ pySlice src (i - 2) i = CLASSIC_MODE_TAG then
        .ok ⟨headerOf src, i, i - 2, .CLASSIC⟩
      else .ok ⟨headerOf src, i, i, .BEYOND⟩) := by
  obtain ⟨hlen, h1, h2, h3, h4, h5⟩ := structChecks_facts hc
  exact analyze_intro path hlen h1 h2 h3 h4 h5 (rfindTerm_some_iff.mpr ⟨hb, hm, hlast⟩)

/-- Witness for C9 at the minimal Beyond container, whose last (only)
terminator occurrence is at index 20. -/
theorem C9_witness :
    analyze "u.gia" fileBeyond =
      (if 20 ≤ 20 - 2 ∧ pySlice fileBeyond (20 - 2) 20 = CLASSIC_MODE_TAG then
        .ok ⟨headerOf fileBeyond, 20, 20 - 2, .CLASSIC⟩
      else .ok ⟨headerOf fileBeyond, 20, 20, .BEYOND⟩) :=
  C9_last_occurrence "u.gia" fileBeyond 20 (by decide) (by decide) (by decide) (by
    intro j h1 h2
    have hl : fileBeyond.length = 26 := by decide
    omega)

lemma analyze_error_inv {path : String} {src : Bytes} {e : GiaError}
    (hlen : 20 ≤ src.length) (he : analyze path src = .error e) :
    e = .invalidFormat path := by
  unfold analyze detectMode at he
  rw [headerStructSize, footerStructSize] at he
  rw [if_neg (by omega : ¬ src.length = 0), if_neg (by omega : ¬ src.length < 20)] at he
  split at he
  · cases he
    rfl
  split at he
  · cases he
    rfl
  split at he
  · cases he
    rfl
  split at he
  · cases he
    rfl
  split at he
  · cases he
    rfl
  split at he
  · cases he
    rfl
  split at he
  · cases he
  · cases he

/-- C3 (amended): every structurally invalid file of length at least 20 bytes
is rejected with an InvalidFormat failure whose message names the offending
path, before any byte is written (the conversion returns the error with no
result).  Files shorter than the 20-byte header abort with an unhandled
unpack error instead (`parseError`), not with the InvalidFormat report. -/
theorem C3_invalid_rejection_amended (path : String) (src : Bytes)
    (to_mode : Option AssetMode) (d : Bool) (e : GiaError)
    (hlen : 20 ≤ src.length) (he : analyze path src = .error e) :
    e = .invalidFormat path ∧
    do_giacc_convert path src to_mode d = .error (.invalidFormat path) ∧
    errorMessage e = "Input file is not a valid GIA file: \"" ++ path ++ "\"" := by
  have h1 := analyze_error_inv hlen he
  subst h1
  exact ⟨rfl, do_giacc_convert_error to_mode d he, rfl⟩

/-- Witness for C3: a 24-byte file whose header magic is 807. -/
theorem C3_witness :
    GiaError.invalidFormat "b.gia" = .invalidFormat "b.gia" ∧
    do_giacc_convert "b.gia" fileBadMagic (some .CLASSIC) true =
      .error (.invalidFormat "b.gia") ∧
    errorMessage (.invalidFormat "b.gia") =
      "Input file is not a valid GIA file: \"" ++ "b.gia" ++ "\"" :=
  C3_invalid_rejection_amended "b.gia" fileBadMagic (some .CLASSIC) true
    (.invalidFormat "b.gia") (by decide) (by decide)

/-- Counterexample to C3 as stated: a 10-byte file is structurally invalid
(too short for the header plus footer), yet the run ends in the uncaught
unpack error, not in an InvalidFormat failure naming the path. -/
theorem C3_counterexample :
    do_giacc_convert "s.gia" fileShort (some .CLASSIC) true = .error .parseError ∧
    GiaError.parseError ≠ GiaError.invalidFormat "s.gia" := by
  constructor
  · decide
  · decide

/-- C5: a file whose header and footer regions exist (length at least 24) and
whose footer magic differs from 1657 is rejected with InvalidFormat naming the
path, for every target mode and for both the in-place and distinct-destination
forms; the error return means no destination result exists and the source is
untouched, since every check precedes the first write. -/
theorem C5_footer_rejection (path : String) (src : Bytes) (tm : AssetMode) (d : Bool)
    (hlen : 24 ≤ src.length)
    (hf : readU32 src (src.length - 4) ≠ 1657) :
    do_giacc_convert path src (some tm) d = .error (.invalidFormat path) := by
  cases hA : analyze path src with
  | ok info =>
    obtain ⟨-, -, -, -, -, -, hfm, -, -⟩ := analyze_ok_facts hA
    exact absurd hfm hf
  | error e =>
    have he := analyze_error_inv (by omega) hA
    subst he
    exact do_giacc_convert_error (some tm) d hA

/-- Witness for C5: a valid-but-for-the-footer file with footer magic 1656. -/
theorem C5_witness :
    do_giacc_convert "f.gia" fileBadFooter (some .BEYOND) false =
      .error (.invalidFormat "f.gia") :=
  C5_footer_rejection "f.gia" fileBadFooter .BEYOND false (by decide) (by decide)

end GIACC
